import Mathlib

/-!
Verification development for the fask acoustic FSK modem
(frame encoder in src/lib/protocol.ts, bit decoder in src/lib/rxDecoder.ts,
per-symbol signal classification in src/pages/RxPage.tsx).

Bit strings (the source represents bits as strings of the characters 0 and 1)
are embedded as List Bool, with true standing for the character 1.
Bytes are embedded as natural numbers below 256.
JS numbers appearing in integer positions are embedded as Nat; the one place
the source handles a possibly negative number (the V3 sequence number) is
embedded for the nonnegative case, which is the only case the claims quantify
over.
The external DEFLATE compressor (pako deflateRaw / inflateRaw) is out of scope
per the spec and is passed in as an abstract byte transform: deflate is total,
inflate returns none where pako inflateRaw would throw.
The external TextEncoder / TextDecoder pair is modelled by utf8Encode /
utf8DecodeReplace below; the decoder follows the WHATWG UTF-8 decode algorithm
with U+FFFD replacement (the source constructs TextDecoder without the fatal
option, so invalid input is replaced, never thrown).
-/

namespace Fask

abbrev Bits := List Bool

/-- MSB-first bit list of width w for a natural number (the embedding of
toString(2).padStart(w, "0"), which agrees with it for n below 2 to the w). -/
def natToBits : Nat → Nat → Bits
  | 0, _ => []
  | w + 1, n => n.testBit w :: natToBits w n

/-- parseInt(bits, 2) on a binary string, MSB first. -/
def bitsToNat (l : Bits) : Nat := l.foldl (fun a b => 2 * a + b.toNat) 0

/-- bytes to MSB-first bit stream, as bytesToBitStream in protocol.ts. -/
def bytesToBitStream (bytes : List Nat) : Bits := bytes.flatMap (natToBits 8)

/-- bitStreamToBytes in protocol.ts; none embeds the thrown
"bits length not multiple of 8" error. -/
def bitStreamToBytes : Bits → Option (List Nat)
  | [] => some []
  | b0 :: b1 :: b2 :: b3 :: b4 :: b5 :: b6 :: b7 :: rest =>
      (bitStreamToBytes rest).map (bitsToNat [b0, b1, b2, b3, b4, b5, b6, b7] :: ·)
  | _ => none

/-- u8ToBits in protocol.ts (callers always pass a value below 256, so the
thrown range error is unreachable and not modelled). -/
def u8ToBits (n : Nat) : Bits := natToBits 8 n

/-- u16ToBits in protocol.ts (callers always pass a value below 65536, so the
thrown range error is unreachable and not modelled). -/
def u16ToBits (n : Nat) : Bits := natToBits 16 n

/-! Protocol constants, from src/lib/protocol.ts and src/lib/rxDecoder.ts. -/

/-- "01".repeat(16): 32 bits. -/
def PREAMBLE_BITS_V2 : Bits := (List.replicate 16 [false, true]).flatten

/-- "11110000".repeat(2): 16 bits. -/
def SYNC_BITS_V2 : Bits :=
  (List.replicate 2 [true, true, true, true, false, false, false, false]).flatten

/-- "11001100".repeat(2): 16 bits. -/
def SYNC_BITS_V3 : Bits :=
  (List.replicate 2 [true, true, false, false, true, true, false, false]).flatten

def LEN_FLAG_MASK : Nat := 0x8000
def LEN_VALUE_MASK : Nat := 0x7fff
def COMPRESS_MIN_RAW_BYTES : Nat := 24
def COMPRESS_MIN_GAIN_BYTES : Nat := 2

/-- V3_VERSION_BITS = "10". -/
def V3_VERSION_BITS : Bits := [true, false]

def V3_RESERVED_FLAGS_MASK : Nat := 0b111110

def PREAMBLE_MATCH_MIN : Nat := 28
def SYNC_MAX_ERRORS : Nat := 3
def MAX_PAYLOAD_BYTES : Nat := 0x7fff

/-- flipBit in rxDecoder.ts. -/
def flipBit (b : Bool) : Bool := !b

/-- INVERTED_PREAMBLE_BITS in rxDecoder.ts. -/
def INVERTED_PREAMBLE_BITS : Bits := PREAMBLE_BITS_V2.map flipBit

/-! CRC16/CCITT-FALSE, from crc16CcittFalse in protocol.ts. -/

/-- One shift step of the inner bit loop of crc16CcittFalse. -/
def crcShift (crc : Nat) : Nat :=
  if crc &&& 0x8000 ≠ 0 then ((crc <<< 1) ^^^ 0x1021) &&& 0xffff
  else (crc <<< 1) &&& 0xffff

/-- The inner loop: k applications of crcShift. -/
def crcRounds : Nat → Nat → Nat
  | 0, crc => crc
  | k + 1, crc => crcRounds k (crcShift crc)

/-- crc16CcittFalse in protocol.ts: start at 0xffff, per byte XOR the byte
shifted into the top half and run 8 shift steps. -/
def crc16CcittFalse (data : List Nat) : Nat :=
  data.foldl (fun crc b => crcRounds 8 (crc ^^^ (b <<< 8))) 0xffff

/-- calculateV3Crc16Bits in protocol.ts; none embeds the unreachable byte
misalignment throw of bitStreamToBytes. -/
def calculateV3Crc16Bits (headerBits payloadBits : Bits) : Option Bits :=
  (bitStreamToBytes (headerBits ++ payloadBits)).map
    (fun bytes => u16ToBits (crc16CcittFalse bytes))

/-- verifyCrc16 in protocol.ts. The none branch stands for the byte
misalignment throw of calculateV3Crc16Bits, which no reachable decoder state
triggers (header bits are 32, payload bits a multiple of 8). -/
def verifyCrc16 (headerBits payloadBits crcBits : Bits) : Bool :=
  if crcBits.length ≠ 16 then false
  else
    match calculateV3Crc16Bits headerBits payloadBits with
    | some bits => bits == crcBits
    | none => false

/-! UTF-8 text codec. The source uses the platform TextEncoder and TextDecoder
(constructed without the fatal option). A text value is embedded as the list
of its Unicode scalar values. -/

/-- A Unicode scalar value: any code point that is not a surrogate. -/
def isScalar (v : Nat) : Prop := v < 0xD800 ∨ (0xDFFF < v ∧ v < 0x110000)

instance (v : Nat) : Decidable (isScalar v) := by unfold isScalar; infer_instance

/-- UTF-8 encoding of one scalar value (TextEncoder). -/
def utf8EncodeChar (v : Nat) : List Nat :=
  if v < 0x80 then [v]
  else if v < 0x800 then [0xC0 + v / 64, 0x80 + v % 64]
  else if v < 0x10000 then
    [0xE0 + v / 4096, 0x80 + v / 64 % 64, 0x80 + v % 64]
  else
    [0xF0 + v / 262144, 0x80 + v / 4096 % 64, 0x80 + v / 64 % 64, 0x80 + v % 64]

/-- TextEncoder().encode on a list of scalar values. -/
def utf8Encode (text : List Nat) : List Nat := text.flatMap utf8EncodeChar

/-- State of the WHATWG UTF-8 decoder: how many continuation bytes are still
needed, the code point accumulated so far, and the admissible range of the
next continuation byte. -/
structure Utf8State where
  needed : Nat
  cp : Nat
  lo : Nat
  hi : Nat
deriving DecidableEq

def utf8Init : Utf8State := ⟨0, 0, 0x80, 0xBF⟩

/-- WHATWG UTF-8 decode, transition on a byte read in the initial state. -/
def utf8StepInit (b : Nat) : Utf8State × List Nat :=
  if b ≤ 0x7F then (utf8Init, [b])
  else if 0xC2 ≤ b ∧ b ≤ 0xDF then (⟨1, b % 32, 0x80, 0xBF⟩, [])
  else if 0xE0 ≤ b ∧ b ≤ 0xEF then
    (⟨2, b % 16, if b = 0xE0 then 0xA0 else 0x80, if b = 0xED then 0x9F else 0xBF⟩, [])
  else if 0xF0 ≤ b ∧ b ≤ 0xF4 then
    (⟨3, b % 8, if b = 0xF0 then 0x90 else 0x80, if b = 0xF4 then 0x8F else 0xBF⟩, [])
  else (utf8Init, [0xFFFD])

/-- WHATWG UTF-8 decode, one byte. A continuation byte out of range emits a
replacement character and reprocesses the byte in the initial state (inlined
here, since the initial state always consumes its byte). -/
def utf8Step (st : Utf8State) (b : Nat) : Utf8State × List Nat :=
  if st.needed = 0 then utf8StepInit b
  else if b < st.lo ∨ st.hi < b then
    let (st2, out) := utf8StepInit b
    (st2, 0xFFFD :: out)
  else
    let cp := st.cp * 64 + b % 64
    if st.needed = 1 then (utf8Init, [cp])
    else (⟨st.needed - 1, cp, 0x80, 0xBF⟩, [])

def utf8DecodeGo (st : Utf8State) : List Nat → List Nat
  | [] => if st.needed ≠ 0 then [0xFFFD] else []
  | b :: rest =>
      let (st2, out) := utf8Step st b
      out ++ utf8DecodeGo st2 rest

/-- TextDecoder().decode without the fatal option: WHATWG UTF-8 decode with
U+FFFD replacement. Total: invalid input never throws. -/
def utf8DecodeReplace (bytes : List Nat) : List Nat := utf8DecodeGo utf8Init bytes

/-! Frame encoder, from src/lib/protocol.ts. -/

inductive EncodeError
  | payloadTooLarge
  | encodedPayloadTooLarge
  | bitsMisaligned
deriving DecidableEq

structure PickedPayload where
  payload : List Nat
  compressed : Bool
deriving DecidableEq

structure EncodedFrameV2 where
  bits : Bits
  payloadBits : Bits
  compressed : Bool
  rawBytes : Nat
  txBytes : Nat
deriving DecidableEq

structure EncodedFrameV3 where
  bits : Bits
  payloadBits : Bits
  compressed : Bool
  rawBytes : Nat
  txBytes : Nat
  seq : Nat
  crc16 : Nat
deriving DecidableEq

structure V3Header where
  flags : Nat
  compressed : Bool
  seq : Nat
  lenBytes : Nat
deriving DecidableEq

/-- parseLenFlagU16 in protocol.ts. Its range throw is unreachable for the
16-bit inputs every caller passes and is not modelled. -/
def parseLenFlagU16 (bits16 : Bits) : Bool × Nat :=
  let value := bitsToNat bits16
  ((value &&& LEN_FLAG_MASK) ≠ 0, value &&& LEN_VALUE_MASK)

/-- buildHeaderV3Bits in protocol.ts. -/
def buildHeaderV3Bits (compressed : Bool) (seq lenBytes : Nat) : Bits :=
  let flags : Nat := if compressed then 1 else 0
  V3_VERSION_BITS ++ natToBits 6 flags ++ u8ToBits seq ++ u16ToBits lenBytes

/-- parseHeaderV3 in protocol.ts; none embeds every thrown parse error. -/
def parseHeaderV3 (bits32 : Bits) : Option V3Header :=
  if bits32.length ≠ 32 then none
  else
    let versionBits := bits32.take 2
    if versionBits ≠ V3_VERSION_BITS then none
    else
      let flags := bitsToNat ((bits32.drop 2).take 6)
      if flags &&& V3_RESERVED_FLAGS_MASK ≠ 0 then none
      else
        let seq := bitsToNat ((bits32.drop 8).take 8)
        let lenBytes := bitsToNat ((bits32.drop 16).take 16)
        if LEN_VALUE_MASK < lenBytes then none
        else some ⟨flags, (flags &&& 0b1) ≠ 0, seq, lenBytes⟩

section Encoder

variable (deflate : List Nat → List Nat)

/-- pickPayload in protocol.ts, over the abstract external deflateRaw. -/
def pickPayload (raw : List Nat) : PickedPayload :=
  let compressedCandidate := deflate raw
  let shouldCompress : Bool :=
    COMPRESS_MIN_RAW_BYTES ≤ raw.length ∧
      compressedCandidate.length + COMPRESS_MIN_GAIN_BYTES < raw.length
  ⟨if shouldCompress then compressedCandidate else raw, shouldCompress⟩

/-- buildFrameBitsV2 in protocol.ts. The text argument is the list of scalar
values of the input string. -/
def buildFrameBitsV2 (text : List Nat) : Except EncodeError EncodedFrameV2 :=
  let raw := utf8Encode text
  if LEN_VALUE_MASK < raw.length then .error .payloadTooLarge
  else
    let picked := pickPayload deflate raw
    if LEN_VALUE_MASK < picked.payload.length then .error .encodedPayloadTooLarge
    else
      let lenFlag := (if picked.compressed then LEN_FLAG_MASK else 0) ||| picked.payload.length
      let lenBits := u16ToBits lenFlag
      let payloadBits := bytesToBitStream picked.payload
      .ok ⟨PREAMBLE_BITS_V2 ++ SYNC_BITS_V2 ++ lenBits ++ payloadBits,
           payloadBits, picked.compressed, raw.length, picked.payload.length⟩

/-- buildFrameBitsV3 in protocol.ts. The seq normalization
((seq % 256) + 256) % 256 is embedded for nonnegative seq, where it equals
seq % 256. The bitsMisaligned branch embeds the unreachable misalignment
throw inside calculateV3Crc16Bits. -/
def buildFrameBitsV3 (text : List Nat) (seq : Nat) : Except EncodeError EncodedFrameV3 :=
  let raw := utf8Encode text
  if LEN_VALUE_MASK < raw.length then .error .payloadTooLarge
  else
    let picked := pickPayload deflate raw
    if LEN_VALUE_MASK < picked.payload.length then .error .encodedPayloadTooLarge
    else
      let safeSeq := seq % 256
      let payloadBits := bytesToBitStream picked.payload
      let headerBits := buildHeaderV3Bits picked.compressed safeSeq picked.payload.length
      match calculateV3Crc16Bits headerBits payloadBits with
      | none => .error .bitsMisaligned
      | some crcBits =>
          .ok ⟨PREAMBLE_BITS_V2 ++ SYNC_BITS_V3 ++ headerBits ++ payloadBits ++ crcBits,
               payloadBits, picked.compressed, raw.length, picked.payload.length,
               safeSeq, bitsToNat crcBits⟩

end Encoder

/-! Bit decoder, from src/lib/rxDecoder.ts. -/

/-- DecoderState in rxDecoder.ts. -/
inductive DecoderState
  | search_preamble (window : Bits)
  | search_sync (window : Bits) (invert : Bool)
  | read_v3_header (bits : Bits) (invert : Bool)
  | read_v3_payload (headerBits : Bits) (lenBytes : Nat) (compressed : Bool)
      (seq : Nat) (bits : Bits) (invert : Bool)
  | read_v3_crc (headerBits payloadBits : Bits) (compressed : Bool)
      (seq : Nat) (bits : Bits) (invert : Bool)
  | read_v2_len (bits : Bits) (invert : Bool)
  | read_v2_payload (lenBytes : Nat) (compressed : Bool) (bits : Bits) (invert : Bool)
deriving DecidableEq

inductive DecoderErrorCode
  | crc_fail
  | len_invalid
  | decode_fail
  | sync_lost
deriving DecidableEq

structure DecoderStats where
  okFrames : Nat
  crcFail : Nat
  lenInvalid : Nat
  decodeFail : Nat
  syncLost : Nat
  resyncCount : Nat
  lastError : Option DecoderErrorCode
deriving DecidableEq

inductive FrameVersion
  | v2
  | v3
deriving DecidableEq

structure DecoderFrame where
  text : List Nat
  version : FrameVersion
  compressed : Bool
  lenBytes : Nat
  seq : Option Nat
deriving DecidableEq

/-- DecoderEvent in rxDecoder.ts. The human-readable message strings and the
optional lenBytes payload of status events are presentation data and are not
embedded. -/
inductive DecoderEvent
  | status
  | error (code : DecoderErrorCode)
  | frame (frame : DecoderFrame)
deriving DecidableEq

/-- The RxBitDecoder instance state: protocol state, stats, and the
constructor option allowV2Fallback (default false). -/
structure RxBitDecoder where
  state : DecoderState
  stats : DecoderStats
  allowV2Fallback : Bool
deriving DecidableEq

def initialStats : DecoderStats := ⟨0, 0, 0, 0, 0, 0, none⟩

/-- A freshly constructed RxBitDecoder. -/
def RxBitDecoder.init (allowV2Fallback : Bool) : RxBitDecoder :=
  ⟨.search_preamble [], initialStats, allowV2Fallback⟩

/-- countMatches in rxDecoder.ts. -/
def countEqAux : Bits → Bits → Nat
  | [], _ => 0
  | _, [] => 0
  | x :: xs, y :: ys => (if x = y then 1 else 0) + countEqAux xs ys

def countMatches (a b : Bits) : Nat :=
  if a.length = b.length then countEqAux a b else 0

def countNeAux : Bits → Bits → Nat
  | [], _ => 0
  | _, [] => 0
  | x :: xs, y :: ys => (if x = y then 0 else 1) + countNeAux xs ys

/-- hammingDistance in rxDecoder.ts. none embeds Number.POSITIVE_INFINITY,
returned on length mismatch and used as the disabled-fallback distance. -/
def hammingDistance (a b : Bits) : Option Nat :=
  if a.length = b.length then some (countNeAux a b) else none

/-- Comparison on Nat extended with infinity (none), as JS comparison with
Number.POSITIVE_INFINITY behaves. -/
def optLE : Option Nat → Option Nat → Bool
  | _, none => true
  | none, some _ => false
  | some a, some b => a ≤ b

/-- decodePayload in rxDecoder.ts, over the abstract external inflateRaw;
none embeds every thrown decode error (misaligned bit count or inflate
failure). UTF-8 decoding is total (replacement, not fatal), so it never
contributes a failure. -/
def decodePayload (inflate : List Nat → Option (List Nat))
    (bits : Bits) (compressed : Bool) : Option (List Nat) := do
  let payloadBytes ← bitStreamToBytes bits
  let decodedBytes ← if compressed then inflate payloadBytes else some payloadBytes
  some (utf8DecodeReplace decodedBytes)

/-- The sliding window push (window + nextBit).slice(-maxLen). -/
def pushWindow (window : Bits) (maxLen : Nat) (nextBit : Bool) : Bits :=
  let w := window ++ [nextBit]
  w.drop (w.length - maxLen)

/-- RxBitDecoder.resync: record the error, bump the counters, reset the
protocol state, return the error event. -/
def RxBitDecoder.resync (d : RxBitDecoder) (code : DecoderErrorCode) :
    RxBitDecoder × Option DecoderEvent :=
  let s0 := d.stats
  let s1 : DecoderStats := { s0 with lastError := some code, resyncCount := s0.resyncCount + 1 }
  let s2 := if code = .crc_fail then { s1 with crcFail := s1.crcFail + 1 } else s1
  let s3 := if code = .len_invalid then { s2 with lenInvalid := s2.lenInvalid + 1 } else s2
  let s4 := if code = .decode_fail then { s3 with decodeFail := s3.decodeFail + 1 } else s3
  let s5 := if code = .sync_lost then { s4 with syncLost := s4.syncLost + 1 } else s4
  ({ d with state := .search_preamble [], stats := s5 }, some (.error code))

/-- RxBitDecoder.consumeBit, one demodulated bit at a time. -/
def RxBitDecoder.consumeBit (inflate : List Nat → Option (List Nat))
    (d : RxBitDecoder) (rawBit : Bool) : RxBitDecoder × Option DecoderEvent :=
  match d.state with
  | .search_preamble window =>
      let w := pushWindow window PREAMBLE_BITS_V2.length rawBit
      if w.length = PREAMBLE_BITS_V2.length then
        let normalMatches := countMatches w PREAMBLE_BITS_V2
        let invertedMatches := countMatches w INVERTED_PREAMBLE_BITS
        if PREAMBLE_MATCH_MIN ≤ normalMatches ∨ PREAMBLE_MATCH_MIN ≤ invertedMatches then
          ({ d with state := .search_sync [] (decide (normalMatches < invertedMatches)) },
           some .status)
        else ({ d with state := .search_preamble w }, none)
      else ({ d with state := .search_preamble w }, none)
  | .search_sync window invert =>
      let bit := if invert then flipBit rawBit else rawBit
      let w := pushWindow window SYNC_BITS_V3.length bit
      if w.length = SYNC_BITS_V3.length then
        let v3Errors := hammingDistance w SYNC_BITS_V3
        let v2Errors := if d.allowV2Fallback then hammingDistance w SYNC_BITS_V2 else none
        if optLE v3Errors (some SYNC_MAX_ERRORS) && optLE v3Errors v2Errors then
          ({ d with state := .read_v3_header [] invert }, some .status)
        else if optLE v2Errors (some SYNC_MAX_ERRORS) then
          ({ d with state := .read_v2_len [] invert }, some .status)
        else ({ d with state := .search_sync w invert }, none)
      else ({ d with state := .search_sync w invert }, none)
  | .read_v3_header bits invert =>
      let bit := if invert then flipBit rawBit else rawBit
      let bits := bits ++ [bit]
      if bits.length < 32 then ({ d with state := .read_v3_header bits invert }, none)
      else
        match parseHeaderV3 bits with
        | some parsed =>
            if MAX_PAYLOAD_BYTES < parsed.lenBytes then d.resync .len_invalid
            else
              ({ d with state := .read_v3_payload bits parsed.lenBytes parsed.compressed
                          parsed.seq [] invert },
               some .status)
        | none => d.resync .len_invalid
  | .read_v3_payload headerBits lenBytes compressed seq bits invert =>
      let bit := if invert then flipBit rawBit else rawBit
      let needBits := lenBytes * 8
      let bits := bits ++ [bit]
      if bits.length < needBits then
        ({ d with state := .read_v3_payload headerBits lenBytes compressed seq bits invert },
         none)
      else
        ({ d with state := .read_v3_crc headerBits (bits.take needBits) compressed seq [] invert },
         some .status)
  | .read_v3_crc headerBits payloadBits compressed seq bits invert =>
      let bit := if invert then flipBit rawBit else rawBit
      let bits := bits ++ [bit]
      if bits.length < 16 then
        ({ d with state := .read_v3_crc headerBits payloadBits compressed seq bits invert },
         none)
      else
        let crcBits := bits.take 16
        if verifyCrc16 headerBits payloadBits crcBits then
          match decodePayload inflate payloadBits compressed with
          | some text =>
              ({ d with state := .search_preamble [],
                        stats := { d.stats with okFrames := d.stats.okFrames + 1 } },
               some (.frame ⟨text, .v3, compressed, payloadBits.length / 8, some seq⟩))
          | none => d.resync .decode_fail
        else d.resync .crc_fail
  | .read_v2_len bits invert =>
      let bit := if invert then flipBit rawBit else rawBit
      let bits := bits ++ [bit]
      if bits.length < 16 then ({ d with state := .read_v2_len bits invert }, none)
      else
        let parsed := parseLenFlagU16 bits
        if MAX_PAYLOAD_BYTES < parsed.2 then d.resync .len_invalid
        else
          ({ d with state := .read_v2_payload parsed.2 parsed.1 [] invert }, some .status)
  | .read_v2_payload lenBytes compressed bits invert =>
      let bit := if invert then flipBit rawBit else rawBit
      let needBits := lenBytes * 8
      let bits := bits ++ [bit]
      if bits.length < needBits then
        ({ d with state := .read_v2_payload lenBytes compressed bits invert }, none)
      else
        match decodePayload inflate (bits.take needBits) compressed with
        | some text =>
            ({ d with state := .search_preamble [],
                      stats := { d.stats with okFrames := d.stats.okFrames + 1 } },
             some (.frame ⟨text, .v2, compressed, lenBytes, none⟩))
        | none => d.resync .decode_fail

/-- Feed a bit string one bit at a time, collecting the emitted events. -/
def feedBits (inflate : List Nat → Option (List Nat)) (d : RxBitDecoder) :
    Bits → RxBitDecoder × List DecoderEvent
  | [] => (d, [])
  | b :: rest =>
      let (d1, ev) := d.consumeBit inflate b
      let (d2, evs) := feedBits inflate d1 rest
      (d2, ev.toList ++ evs)

/-! Per-symbol signal classification, from src/pages/RxPage.tsx. The Goertzel
recurrence is exact rational arithmetic over the sample window; the
transcendental constants cos w and sin w (w = 2 pi f / sampleRate) enter the
source only through these two values per tone, so they are taken as
parameters. -/

/-- goertzelPower in RxPage.tsx, with cos w and sin w as parameters. -/
def goertzelPower (cosw sinw : ℚ) (samples : List ℚ) : ℚ :=
  let coeff := 2 * cosw
  let q := samples.foldl (fun (q : ℚ × ℚ) x => (coeff * q.1 - q.2 + x, q.1)) (0, 0)
  let real := q.1 - q.2 * cosw
  let imag := q.2 * sinw
  real * real + imag * imag

/-- The two carrier tones as their per-tone cos w / sin w values. -/
structure ToneParams where
  cos0 : ℚ
  sin0 : ℚ
  cos1 : ℚ
  sin1 : ℚ
deriving DecidableEq

def EPS : ℚ := 1 / 10 ^ 12

structure SymbolDecision where
  bit : Bool
  p0 : ℚ
  p1 : ℚ
  snr : ℚ
deriving DecidableEq

/-- The per-symbol bit decision of the receive loop in RxPage.tsx startRx:
one Goertzel power per tone over the whole window, snr = max / (min + EPS),
bit = 1 iff p1 > p0. -/
def rxSymbolDecision (tp : ToneParams) (samples : List ℚ) : SymbolDecision :=
  let p0 := goertzelPower tp.cos0 tp.sin0 samples
  let p1 := goertzelPower tp.cos1 tp.sin1 samples
  let snr := max p0 p1 / (min p0 p1 + EPS)
  ⟨decide (p0 < p1), p0, p1, snr⟩

/-- Modelled from the spec: the triple-window symbol decision strategy of
section 4.2, which is absent from the source. Three overlapping sub-windows,
each half the window length, centered at 25, 50 and 75 percent of the symbol;
each votes 1 iff its Goertzel power at f1 exceeds its power at f0; the bit is
the majority of the three votes; p0 and p1 are the averages over the three
sub-windows and snr = max / (min + eps). -/
def tripleWindowDecision (tp : ToneParams) (samples : List ℚ) : SymbolDecision :=
  let n := samples.length
  let half := n / 2
  let sub := fun (center : Nat) => (samples.drop (center - half / 2)).take half
  let w1 := sub (n / 4)
  let w2 := sub (n / 2)
  let w3 := sub (3 * n / 4)
  let p0s := [w1, w2, w3].map (goertzelPower tp.cos0 tp.sin0)
  let p1s := [w1, w2, w3].map (goertzelPower tp.cos1 tp.sin1)
  let votes := (List.zip p0s p1s).countP (fun p => decide (p.1 < p.2))
  let p0 := p0s.sum / 3
  let p1 := p1s.sum / 3
  ⟨decide (2 ≤ votes), p0, p1, max p0 p1 / (min p0 p1 + EPS)⟩

/-! Auxiliary definitions used only to state and prove theorems below. -/

/-- XOR a whole bit string with a polarity: applyInv inv bits is the raw
channel representation of corrected bits under inversion flag inv. -/
def applyInv (inv : Bool) (bits : Bits) : Bits := bits.map (fun b => Bool.xor b inv)

/-- The stats update performed by RxBitDecoder.resync. -/
def bumpStats (st : DecoderStats) (code : DecoderErrorCode) : DecoderStats :=
  let s1 : DecoderStats := { st with lastError := some code, resyncCount := st.resyncCount + 1 }
  let s2 := if code = .crc_fail then { s1 with crcFail := s1.crcFail + 1 } else s1
  let s3 := if code = .len_invalid then { s2 with lenInvalid := s2.lenInvalid + 1 } else s2
  let s4 := if code = .decode_fail then { s3 with decodeFail := s3.decodeFail + 1 } else s3
  if code = .sync_lost then { s4 with syncLost := s4.syncLost + 1 } else s4

/-! Concrete instantiations used to exercise the definitions on closed inputs. -/

/-- A trivial deflate stand-in: the identity on byte arrays. -/
def idDeflate : List Nat → List Nat := fun b => b

/-- The matching trivial inflate stand-in: always succeeds with the input. -/
def someInflate : List Nat → Option (List Nat) := fun b => some b

/-- Tone parameters with cos ω = 0 for f0 and cos ω = 1 for f1. -/
def tpCE : ToneParams := ⟨0, 1, 1, 0⟩

/-- An eight-sample symbol window. -/
def samplesCE : List ℚ := [2, -1, 1, -1, 1, -1, 1, 5]

/-- A 15-bit sync window prefix: together with a trailing 0 bit it is within
Hamming distance 3 of SYNC_BITS_V2 and distance 9 of SYNC_BITS_V3. -/
def w15 : Bits :=
  [false, false, false, true, false, false, false, false,
   true, true, true, true, false, false, false]

/-- A complete V2 frame whose single payload byte 0xFF is not valid UTF-8. -/
def c8bits : Bits := PREAMBLE_BITS_V2 ++ SYNC_BITS_V2 ++ natToBits 16 1 ++ natToBits 8 0xFF

/-- An always-failing inflate stand-in: every stream is malformed. -/
def noneInflate : List Nat → Option (List Nat) := fun _ => none

/-- The bit string l with the bit at position i flipped (identity beyond the
end of l). -/
def flipAt (l : Bits) (i : Nat) : Bits :=
  l.take i ++ [! l.getD i false] ++ l.drop (i + 1)

/-- The decoder state with the channel polarity reversed: the uncorrected
preamble window is complemented, every corrected accumulator is kept, and
the inversion flag is flipped. -/
def stateFlip : DecoderState → DecoderState
  | .search_preamble w => .search_preamble (w.map flipBit)
  | .search_sync w inv => .search_sync w (!inv)
  | .read_v3_header bits inv => .read_v3_header bits (!inv)
  | .read_v3_payload hB len c seq bits inv => .read_v3_payload hB len c seq bits (!inv)
  | .read_v3_crc hB pB c seq bits inv => .read_v3_crc hB pB c seq bits (!inv)
  | .read_v2_len bits inv => .read_v2_len bits (!inv)
  | .read_v2_payload len c bits inv => .read_v2_payload len c bits (!inv)

end Fask

/-! Basic facts about the bit and byte conversions. -/

namespace Fask

theorem length_natToBits (w n : Nat) : (natToBits w n).length = w := by
  induction w generalizing n with
  | zero => rfl
  | succ w ih => simp [natToBits, ih]

theorem bitsToNat_foldl (l : Bits) (a : Nat) :
    l.foldl (fun a b => 2 * a + b.toNat) a = a * 2 ^ l.length + bitsToNat l := by
  induction l generalizing a with
  | nil => simp [bitsToNat]
  | cons b t ih =>
      show t.foldl _ (2 * a + b.toNat) = a * 2 ^ (t.length + 1) + bitsToNat (b :: t)
      rw [ih (2 * a + b.toNat)]
      show _ = a * 2 ^ (t.length + 1) + t.foldl _ (2 * 0 + b.toNat)
      rw [ih (2 * 0 + b.toNat)]
      ring

theorem bitsToNat_cons (b : Bool) (t : Bits) :
    bitsToNat (b :: t) = b.toNat * 2 ^ t.length + bitsToNat t := by
  show t.foldl _ (2 * 0 + b.toNat) = _
  rw [bitsToNat_foldl]
  ring

theorem bitsToNat_append (a b : Bits) :
    bitsToNat (a ++ b) = bitsToNat a * 2 ^ b.length + bitsToNat b := by
  induction a with
  | nil => simp [bitsToNat]
  | cons x t ih =>
      rw [List.cons_append, bitsToNat_cons, bitsToNat_cons, ih,
        List.length_append, Nat.add_mul, Nat.pow_add]
      ring

theorem bitsToNat_lt (l : Bits) : bitsToNat l < 2 ^ l.length := by
  induction l with
  | nil => simp [bitsToNat]
  | cons b t ih =>
      rw [bitsToNat_cons]
      have hb : b.toNat ≤ 1 := Bool.toNat_le b
      have : 2 ^ (b :: t).length = 2 ^ t.length + 2 ^ t.length := by
        simp [List.length_cons, Nat.pow_succ]; ring
      rw [this]
      have := Nat.mul_le_mul_right (2 ^ t.length) hb
      omega

theorem bitsToNat_natToBits_mod (w n : Nat) : bitsToNat (natToBits w n) = n % 2 ^ w := by
  induction w with
  | zero => simp [natToBits, bitsToNat]; omega
  | succ w ih =>
      rw [natToBits, bitsToNat_cons, ih, length_natToBits]
      have hsplit : n % 2 ^ (w + 1) = n % 2 ^ w + 2 ^ w * (n / 2 ^ w % 2) := by
        rw [Nat.pow_succ]
        exact Nat.mod_mul
      have htb : n.testBit w = decide (n / 2 ^ w % 2 = 1) := Nat.testBit_to_div_mod
      have hm2 : n / 2 ^ w % 2 = 0 ∨ n / 2 ^ w % 2 = 1 := by omega
      rcases hm2 with h0 | h1
      · rw [htb, h0]; simp [hsplit, h0]
      · rw [htb, h1]; simp [hsplit, h1]; omega

theorem bitsToNat_natToBits {w n : Nat} (h : n < 2 ^ w) : bitsToNat (natToBits w n) = n := by
  rw [bitsToNat_natToBits_mod, Nat.mod_eq_of_lt h]

theorem natToBits_congr {w m n : Nat} (h : ∀ i, i < w → m.testBit i = n.testBit i) :
    natToBits w m = natToBits w n := by
  induction w with
  | zero => rfl
  | succ w ih =>
      rw [natToBits, natToBits, h w (Nat.lt_succ_self w),
        ih (fun i hi => h i (Nat.lt_succ_of_lt hi))]

theorem natToBits_bitsToNat (l : Bits) : natToBits l.length (bitsToNat l) = l := by
  induction l with
  | nil => rfl
  | cons b t ih =>
      have hlt := bitsToNat_lt t
      rw [List.length_cons, natToBits, bitsToNat_cons]
      have hdiv : (b.toNat * 2 ^ t.length + bitsToNat t) / 2 ^ t.length = b.toNat := by
        rw [Nat.add_comm,
          Nat.add_mul_div_right _ _ (Nat.pos_pow_of_pos t.length (by norm_num)),
          Nat.div_eq_of_lt hlt]
        omega
      have htb : (b.toNat * 2 ^ t.length + bitsToNat t).testBit t.length = b := by
        rw [Nat.testBit_to_div_mod, hdiv]
        cases b <;> simp
      rw [htb]
      congr 1
      have hmod : (b.toNat * 2 ^ t.length + bitsToNat t) % 2 ^ t.length = bitsToNat t := by
        rw [Nat.add_comm, Nat.add_mul_mod_self_right, Nat.mod_eq_of_lt hlt]
      calc natToBits t.length (b.toNat * 2 ^ t.length + bitsToNat t)
          = natToBits t.length ((b.toNat * 2 ^ t.length + bitsToNat t) % 2 ^ t.length) := by
            apply natToBits_congr
            intro i hi
            rw [Nat.testBit_mod_two_pow]
            simp [hi]
        _ = natToBits t.length (bitsToNat t) := by rw [hmod]
        _ = t := ih

theorem bitsToNat_inj {a b : Bits} (hlen : a.length = b.length)
    (h : bitsToNat a = bitsToNat b) : a = b := by
  have ha := natToBits_bitsToNat a
  have hb := natToBits_bitsToNat b
  rw [← ha, ← hb, hlen, h]

theorem natToBits_inj {w m n : Nat} (hm : m < 2 ^ w) (hn : n < 2 ^ w)
    (h : natToBits w m = natToBits w n) : m = n := by
  have := congrArg bitsToNat h
  rwa [bitsToNat_natToBits hm, bitsToNat_natToBits hn] at this

theorem length_bytesToBitStream (bytes : List Nat) :
    (bytesToBitStream bytes).length = 8 * bytes.length := by
  induction bytes with
  | nil => rfl
  | cons b t ih =>
      simp [bytesToBitStream, List.flatMap_cons, length_natToBits] at *
      omega

theorem natToBits_eight (b : Nat) :
    natToBits 8 b = [b.testBit 7, b.testBit 6, b.testBit 5, b.testBit 4,
      b.testBit 3, b.testBit 2, b.testBit 1, b.testBit 0] := rfl

theorem bitStreamToBytes_natToBits_eight (b : Nat) (rest : Bits) :
    bitStreamToBytes (natToBits 8 b ++ rest) =
      (bitStreamToBytes rest).map (b % 256 :: ·) := by
  rw [natToBits_eight]
  show bitStreamToBytes (b.testBit 7 :: b.testBit 6 :: b.testBit 5 :: b.testBit 4 ::
    b.testBit 3 :: b.testBit 2 :: b.testBit 1 :: b.testBit 0 :: rest) = _
  rw [bitStreamToBytes]
  congr 1
  funext x
  congr 1
  have : [b.testBit 7, b.testBit 6, b.testBit 5, b.testBit 4,
      b.testBit 3, b.testBit 2, b.testBit 1, b.testBit 0] = natToBits 8 b := rfl
  rw [this, bitsToNat_natToBits_mod]
  norm_num

theorem bitStreamToBytes_bytesToBitStream (bytes : List Nat)
    (h : ∀ b ∈ bytes, b < 256) :
    bitStreamToBytes (bytesToBitStream bytes) = some bytes := by
  induction bytes with
  | nil => rfl
  | cons b t ih =>
      have hb : b < 256 := h b (by simp)
      have ht : ∀ x ∈ t, x < 256 := fun x hx => h x (by simp [hx])
      rw [bytesToBitStream, List.flatMap_cons]
      show bitStreamToBytes (natToBits 8 b ++ bytesToBitStream t) = _
      rw [bitStreamToBytes_natToBits_eight, ih ht, Nat.mod_eq_of_lt hb]
      rfl

theorem bitStreamToBytes_append {a : Bits} {A : List Nat} (b : Bits)
    (ha : bitStreamToBytes a = some A) :
    bitStreamToBytes (a ++ b) = (bitStreamToBytes b).map (A ++ ·) := by
  induction a using bitStreamToBytes.induct generalizing A with
  | case1 =>
      simp [bitStreamToBytes] at ha
      subst ha
      simp
  | case2 b0 b1 b2 b3 b4 b5 b6 b7 rest ih =>
      rw [bitStreamToBytes] at ha
      cases hr : bitStreamToBytes rest with
      | none => rw [hr] at ha; simp at ha
      | some R =>
          rw [hr] at ha
          simp at ha
          show bitStreamToBytes (b0 :: b1 :: b2 :: b3 :: b4 :: b5 :: b6 :: b7 :: (rest ++ b)) = _
          rw [bitStreamToBytes, ih hr]
          cases bitStreamToBytes b with
          | none => rfl
          | some B => simp [← ha]
  | case3 t h1 h2 =>
      exfalso
      rcases t with _ | ⟨b0, t⟩
      · exact h1 rfl
      rcases t with _ | ⟨b1, t⟩
      · rw [show bitStreamToBytes [b0] = none from rfl] at ha; exact Option.noConfusion ha
      rcases t with _ | ⟨b2, t⟩
      · rw [show bitStreamToBytes [b0, b1] = none from rfl] at ha; exact Option.noConfusion ha
      rcases t with _ | ⟨b3, t⟩
      · rw [show bitStreamToBytes [b0, b1, b2] = none from rfl] at ha
        exact Option.noConfusion ha
      rcases t with _ | ⟨b4, t⟩
      · rw [show bitStreamToBytes [b0, b1, b2, b3] = none from rfl] at ha
        exact Option.noConfusion ha
      rcases t with _ | ⟨b5, t⟩
      · rw [show bitStreamToBytes [b0, b1, b2, b3, b4] = none from rfl] at ha
        exact Option.noConfusion ha
      rcases t with _ | ⟨b6, t⟩
      · rw [show bitStreamToBytes [b0, b1, b2, b3, b4, b5] = none from rfl] at ha
        exact Option.noConfusion ha
      rcases t with _ | ⟨b7, t⟩
      · rw [show bitStreamToBytes [b0, b1, b2, b3, b4, b5, b6] = none from rfl] at ha
        exact Option.noConfusion ha
      exact h2 b0 b1 b2 b3 b4 b5 b6 b7 t rfl

end Fask

/-! The UTF-8 codec round trip: decoding with replacement recovers any
encoded scalar sequence exactly. -/

namespace Fask

theorem utf8EncodeChar_lt {v : Nat} (hv : v < 0x110000) :
    ∀ b ∈ utf8EncodeChar v, b < 256 := by
  intro b hb
  rw [utf8EncodeChar] at hb
  split_ifs at hb with h1 h2 h3 <;> simp at hb <;> omega

theorem utf8Step_start (b : Nat) : utf8Step utf8Init b = utf8StepInit b := rfl

theorem utf8Step_cont {needed cp lo hi b : Nat} (hn : ¬needed = 0)
    (hin : ¬(b < lo ∨ hi < b)) :
    utf8Step ⟨needed, cp, lo, hi⟩ b =
      if needed = 1 then (utf8Init, [cp * 64 + b % 64])
      else (⟨needed - 1, cp * 64 + b % 64, 0x80, 0xBF⟩, []) := by
  simp only [utf8Step]
  rw [if_neg hn, if_neg hin]

theorem utf8StepInit_two {b : Nat} (h : 0xC2 ≤ b ∧ b ≤ 0xDF) :
    utf8StepInit b = (⟨1, b % 32, 0x80, 0xBF⟩, []) := by
  rw [utf8StepInit, if_neg (by omega), if_pos h]

theorem utf8StepInit_three {b : Nat} (h : 0xE0 ≤ b ∧ b ≤ 0xEF) :
    utf8StepInit b = (⟨2, b % 16, if b = 0xE0 then 0xA0 else 0x80,
      if b = 0xED then 0x9F else 0xBF⟩, []) := by
  rw [utf8StepInit, if_neg (by omega), if_neg (by omega), if_pos h]

theorem utf8StepInit_four {b : Nat} (h : 0xF0 ≤ b ∧ b ≤ 0xF4) :
    utf8StepInit b = (⟨3, b % 8, if b = 0xF0 then 0x90 else 0x80,
      if b = 0xF4 then 0x8F else 0xBF⟩, []) := by
  rw [utf8StepInit, if_neg (by omega), if_neg (by omega), if_neg (by omega), if_pos h]

theorem utf8DecodeGo_cons (st : Utf8State) (b : Nat) (rest : List Nat) :
    utf8DecodeGo st (b :: rest) =
      (utf8Step st b).2 ++ utf8DecodeGo (utf8Step st b).1 rest := by
  rw [utf8DecodeGo]

theorem utf8DecodeGo_encodeChar {v : Nat} (hv : isScalar v) (rest : List Nat) :
    utf8DecodeGo utf8Init (utf8EncodeChar v ++ rest) = v :: utf8DecodeGo utf8Init rest := by
  have hv' : v < 0x110000 := by rcases hv with h | ⟨_, h⟩ <;> omega
  by_cases h1 : v < 0x80
  · rw [utf8EncodeChar, if_pos h1]
    show utf8DecodeGo utf8Init (v :: rest) = _
    have hs0 : utf8Step utf8Init v = (utf8Init, [v]) := by
      rw [utf8Step_start, utf8StepInit, if_pos (by omega)]
    rw [utf8DecodeGo_cons, hs0]
    rfl
  · by_cases h2 : v < 0x800
    · rw [utf8EncodeChar, if_neg h1, if_pos h2]
      show utf8DecodeGo utf8Init ((0xC0 + v / 64) :: (0x80 + v % 64) :: rest) = _
      have hs0 : utf8Step utf8Init (0xC0 + v / 64) =
          (⟨1, (0xC0 + v / 64) % 32, 0x80, 0xBF⟩, []) := by
        rw [utf8Step_start, utf8StepInit_two (by omega)]
      have hs1 : utf8Step ⟨1, (0xC0 + v / 64) % 32, 0x80, 0xBF⟩ (0x80 + v % 64) =
          (utf8Init, [v]) := by
        rw [utf8Step_cont (by omega)
          (not_or.mpr ⟨not_lt.mpr (by omega), not_lt.mpr (by omega)⟩), if_pos rfl]
        have : (0xC0 + v / 64) % 32 * 64 + (0x80 + v % 64) % 64 = v := by omega
        rw [this]
      rw [utf8DecodeGo_cons, hs0]
      dsimp only
      rw [utf8DecodeGo_cons, hs1]
      rfl
    · by_cases h3 : v < 0x10000
      · rw [utf8EncodeChar, if_neg h1, if_neg h2, if_pos h3]
        show utf8DecodeGo utf8Init
          ((0xE0 + v / 4096) :: (0x80 + v / 64 % 64) :: (0x80 + v % 64) :: rest) = _
        have hsur : v < 0xD800 ∨ 0xDFFF < v := by
          rcases hv with h | ⟨h, _⟩
          · exact Or.inl h
          · exact Or.inr h
        have hlo : (if 0xE0 + v / 4096 = 0xE0 then 0xA0 else 0x80) ≤ 0x80 + v / 64 % 64 := by
          by_cases hc : v < 0x1000
          · rw [if_pos (by omega)]; omega
          · rw [if_neg (by omega)]; omega
        have hhi : 0x80 + v / 64 % 64 ≤ (if 0xE0 + v / 4096 = 0xED then 0x9F else 0xBF) := by
          by_cases hc : 0xD000 ≤ v ∧ v < 0xE000
          · rw [if_pos (by omega)]
            rcases hsur with h | h <;> omega
          · rw [if_neg (by omega)]; omega
        have hs0 : utf8Step utf8Init (0xE0 + v / 4096) =
            (⟨2, (0xE0 + v / 4096) % 16, if 0xE0 + v / 4096 = 0xE0 then 0xA0 else 0x80,
              if 0xE0 + v / 4096 = 0xED then 0x9F else 0xBF⟩, []) := by
          rw [utf8Step_start, utf8StepInit_three (by omega)]
        have hs1 : utf8Step ⟨2, (0xE0 + v / 4096) % 16,
              if 0xE0 + v / 4096 = 0xE0 then 0xA0 else 0x80,
              if 0xE0 + v / 4096 = 0xED then 0x9F else 0xBF⟩ (0x80 + v / 64 % 64) =
            (⟨1, (0xE0 + v / 4096) % 16 * 64 + (0x80 + v / 64 % 64) % 64, 0x80, 0xBF⟩, []) := by
          rw [utf8Step_cont (by omega) (not_or.mpr ⟨not_lt.mpr hlo, not_lt.mpr hhi⟩),
            if_neg (by omega)]
        have hs2 : utf8Step ⟨1, (0xE0 + v / 4096) % 16 * 64 + (0x80 + v / 64 % 64) % 64,
              0x80, 0xBF⟩ (0x80 + v % 64) = (utf8Init, [v]) := by
          rw [utf8Step_cont (by omega)
            (not_or.mpr ⟨not_lt.mpr (by omega), not_lt.mpr (by omega)⟩), if_pos rfl]
          have : ((0xE0 + v / 4096) % 16 * 64 + (0x80 + v / 64 % 64) % 64) * 64 +
              (0x80 + v % 64) % 64 = v := by omega
          rw [this]
        rw [utf8DecodeGo_cons, hs0]
        dsimp only
        rw [utf8DecodeGo_cons, hs1]
        dsimp only
        rw [utf8DecodeGo_cons, hs2]
        rfl
      · rw [utf8EncodeChar, if_neg h1, if_neg h2, if_neg h3]
        show utf8DecodeGo utf8Init
          ((0xF0 + v / 262144) :: (0x80 + v / 4096 % 64) :: (0x80 + v / 64 % 64) ::
            (0x80 + v % 64) :: rest) = _
        have hlo : (if 0xF0 + v / 262144 = 0xF0 then 0x90 else 0x80) ≤
            0x80 + v / 4096 % 64 := by
          by_cases hc : v < 0x40000
          · rw [if_pos (by omega)]; omega
          · rw [if_neg (by omega)]; omega
        have hhi : 0x80 + v / 4096 % 64 ≤
            (if 0xF0 + v / 262144 = 0xF4 then 0x8F else 0xBF) := by
          by_cases hc : 0x100000 ≤ v
          · rw [if_pos (by omega)]; omega
          · rw [if_neg (by omega)]; omega
        have hs0 : utf8Step utf8Init (0xF0 + v / 262144) =
            (⟨3, (0xF0 + v / 262144) % 8, if 0xF0 + v / 262144 = 0xF0 then 0x90 else 0x80,
              if 0xF0 + v / 262144 = 0xF4 then 0x8F else 0xBF⟩, []) := by
          rw [utf8Step_start, utf8StepInit_four (by omega)]
        have hs1 : utf8Step ⟨3, (0xF0 + v / 262144) % 8,
              if 0xF0 + v / 262144 = 0xF0 then 0x90 else 0x80,
              if 0xF0 + v / 262144 = 0xF4 then 0x8F else 0xBF⟩ (0x80 + v / 4096 % 64) =
            (⟨2, (0xF0 + v / 262144) % 8 * 64 + (0x80 + v / 4096 % 64) % 64, 0x80, 0xBF⟩,
              []) := by
          rw [utf8Step_cont (by omega) (not_or.mpr ⟨not_lt.mpr hlo, not_lt.mpr hhi⟩),
            if_neg (by omega)]
        have hs2 : utf8Step ⟨2, (0xF0 + v / 262144) % 8 * 64 + (0x80 + v / 4096 % 64) % 64,
              0x80, 0xBF⟩ (0x80 + v / 64 % 64) =
            (⟨1, ((0xF0 + v / 262144) % 8 * 64 + (0x80 + v / 4096 % 64) % 64) * 64 +
              (0x80 + v / 64 % 64) % 64, 0x80, 0xBF⟩, []) := by
          rw [utf8Step_cont (by omega)
            (not_or.mpr ⟨not_lt.mpr (by omega), not_lt.mpr (by omega)⟩), if_neg (by omega)]
        have hs3 : utf8Step ⟨1, ((0xF0 + v / 262144) % 8 * 64 + (0x80 + v / 4096 % 64) % 64)
              * 64 + (0x80 + v / 64 % 64) % 64, 0x80, 0xBF⟩ (0x80 + v % 64) =
            (utf8Init, [v]) := by
          rw [utf8Step_cont (by omega)
            (not_or.mpr ⟨not_lt.mpr (by omega), not_lt.mpr (by omega)⟩), if_pos rfl]
          have : (((0xF0 + v / 262144) % 8 * 64 + (0x80 + v / 4096 % 64) % 64) * 64 +
              (0x80 + v / 64 % 64) % 64) * 64 + (0x80 + v % 64) % 64 = v := by omega
          rw [this]
        rw [utf8DecodeGo_cons, hs0]
        dsimp only
        rw [utf8DecodeGo_cons, hs1]
        dsimp only
        rw [utf8DecodeGo_cons, hs2]
        dsimp only
        rw [utf8DecodeGo_cons, hs3]
        rfl

theorem utf8DecodeReplace_encode {text : List Nat} (h : ∀ v ∈ text, isScalar v) :
    utf8DecodeReplace (utf8Encode text) = text := by
  rw [utf8DecodeReplace]
  induction text with
  | nil => rfl
  | cons v t ih =>
      rw [utf8Encode, List.flatMap_cons]
      rw [utf8DecodeGo_encodeChar (h v (by simp)) _]
      exact congrArg (List.cons v) (ih (fun x hx => h x (by simp [hx])))

theorem utf8Encode_lt {text : List Nat} (h : ∀ v ∈ text, isScalar v) :
    ∀ b ∈ utf8Encode text, b < 256 := by
  intro b hb
  rw [utf8Encode] at hb
  simp only [List.mem_flatMap] at hb
  obtain ⟨v, hv, hbv⟩ := hb
  have : v < 0x110000 := by rcases h v hv with h' | ⟨_, h'⟩ <;> omega
  exact utf8EncodeChar_lt this b hbv

end Fask

/-! CRC16 facts: the shift register is GF(2)-linear in the data, its one-step
map has trivial kernel on 16-bit registers, and therefore two byte strings
differing in exactly one byte never share a CRC. -/

namespace Fask

theorem and_ffff_eq_mod (x : Nat) : x &&& 0xffff = x % 65536 := by
  have h16 : (65536 : Nat) = 2 ^ 16 := by norm_num
  apply Nat.eq_of_testBit_eq
  intro i
  rw [Nat.testBit_and, h16, Nat.testBit_mod_two_pow]
  by_cases h : i < 16
  · have ht : (65535 : Nat).testBit i = true := by interval_cases i <;> decide
    simp [ht, h]
  · have ht : (65535 : Nat).testBit i = false := by
      apply Nat.testBit_lt_two_pow
      calc (65535 : Nat) < 2 ^ 16 := by norm_num
      _ ≤ 2 ^ i := Nat.pow_le_pow_right (by norm_num) (by omega)
    simp [ht, h]

theorem shiftLeft_xor_distrib (a b n : Nat) :
    (a ^^^ b) <<< n = (a <<< n) ^^^ (b <<< n) := by
  apply Nat.eq_of_testBit_eq
  intro i
  rw [Nat.testBit_xor, Nat.testBit_shiftLeft, Nat.testBit_shiftLeft, Nat.testBit_shiftLeft,
    Nat.testBit_xor]
  cases hd : decide (i ≥ n) <;> simp

theorem and_xor_distrib (a b c : Nat) : (a ^^^ b) &&& c = (a &&& c) ^^^ (b &&& c) :=
  Nat.and_xor_distrib_right

theorem crcShift_eq (c : Nat) :
    crcShift c = ((c <<< 1) &&& 0xffff) ^^^ (if c.testBit 15 then 0x1021 else 0) := by
  have hand : c &&& 0x8000 = (c.testBit 15).toNat * 2 ^ 15 := by
    have : (0x8000 : Nat) = 2 ^ 15 := by norm_num
    rw [this, Nat.and_two_pow]
  rw [crcShift]
  by_cases h : c.testBit 15
  · rw [if_pos (by rw [hand, h]; norm_num), if_pos h, and_xor_distrib]
    congr 1
  · rw [if_neg (by rw [hand]; simp [h]), if_neg h, Nat.xor_zero]

theorem xor_rotl (x y z : Nat) : x ^^^ (y ^^^ z) = y ^^^ (x ^^^ z) := by
  rw [← Nat.xor_assoc, Nat.xor_comm x y, Nat.xor_assoc]

theorem crcShift_xor (a b : Nat) : crcShift (a ^^^ b) = crcShift a ^^^ crcShift b := by
  rw [crcShift_eq, crcShift_eq, crcShift_eq, Nat.testBit_xor, shiftLeft_xor_distrib,
    and_xor_distrib]
  cases ha : a.testBit 15 <;> cases hb : b.testBit 15 <;>
      simp only [Bool.bne_false, Bool.bne_true, Bool.false_bne, Bool.true_bne,
        Bool.not_false, Bool.not_true, Bool.false_eq_true, eq_self_iff_true,
        if_true, if_false, Nat.xor_zero, Nat.zero_xor, ite_true, ite_false]
  · rw [Nat.xor_assoc]
  · rw [Nat.xor_assoc, Nat.xor_assoc, Nat.xor_comm (b <<< 1 &&& 65535) 4129]
  · rw [Nat.xor_assoc, xor_rotl 4129, Nat.xor_self, Nat.xor_zero]

theorem crcShift_lt (c : Nat) : crcShift c < 65536 := by
  rw [crcShift]
  split_ifs <;> rw [and_ffff_eq_mod] <;> exact Nat.mod_lt _ (by norm_num)

theorem crcShift_eq_zero {c : Nat} (hc : c < 65536) (h : crcShift c = 0) : c = 0 := by
  rw [crcShift_eq] at h
  by_cases ht : c.testBit 15
  · exfalso
    rw [if_pos ht] at h
    have h0 := congrArg (fun x => x.testBit 0) h
    simp only [Nat.testBit_xor, Nat.testBit_and, Nat.testBit_shiftLeft] at h0
    norm_num at h0
  · rw [if_neg ht, Nat.xor_zero, and_ffff_eq_mod] at h
    have hc15 : c < 32768 := by
      by_contra hge
      apply ht
      rw [Nat.testBit_to_div_mod]
      have : c / 2 ^ 15 = 1 := by omega
      rw [this]
      decide
    have : c <<< 1 = 2 * c := by rw [Nat.shiftLeft_eq]; ring
    rw [this] at h
    omega

theorem crcRounds_add (k m c : Nat) : crcRounds k (crcRounds m c) = crcRounds (k + m) c := by
  induction m generalizing c with
  | zero => rfl
  | succ m ih =>
      show crcRounds k (crcRounds m (crcShift c)) = crcRounds (k + m + 1) c
      rw [ih (crcShift c)]
      rfl

theorem crcRounds_xor (k a b : Nat) : crcRounds k (a ^^^ b) = crcRounds k a ^^^ crcRounds k b := by
  induction k generalizing a b with
  | zero => rfl
  | succ k ih =>
      show crcRounds k (crcShift (a ^^^ b)) = _
      rw [crcShift_xor, ih]
      rfl

theorem crcRounds_lt {c : Nat} (k : Nat) (hc : c < 65536) : crcRounds k c < 65536 := by
  induction k generalizing c with
  | zero => exact hc
  | succ k ih => exact ih (crcShift_lt c)

theorem crcRounds_ne_zero {c : Nat} (k : Nat) (hc : c < 65536) (h : c ≠ 0) :
    crcRounds k c ≠ 0 := by
  induction k generalizing c with
  | zero => exact h
  | succ k ih =>
      refine ih (crcShift_lt c) ?_
      intro hz
      exact h (crcShift_eq_zero hc hz)

theorem crcFold_xor (data : List Nat) (c d : Nat) :
    data.foldl (fun crc b => crcRounds 8 (crc ^^^ (b <<< 8))) (c ^^^ d) =
      data.foldl (fun crc b => crcRounds 8 (crc ^^^ (b <<< 8))) c ^^^
        crcRounds (8 * data.length) d := by
  induction data generalizing c d with
  | nil => rfl
  | cons b t ih =>
      show t.foldl _ (crcRounds 8 (c ^^^ d ^^^ b <<< 8)) = _
      have hshuffle : c ^^^ d ^^^ b <<< 8 = (c ^^^ b <<< 8) ^^^ d := by
        rw [Nat.xor_assoc, Nat.xor_comm d, ← Nat.xor_assoc]
      rw [hshuffle, crcRounds_xor, ih]
      rw [crcRounds_add]
      have hlen : 8 * (b :: t).length = 8 * t.length + 8 := by
        simp only [List.length_cons]
        ring
      rw [hlen]
      rfl

theorem crc16_single_byte_ne (pre suf : List Nat) {b b' : Nat}
    (hb : b < 256) (hb' : b' < 256) (hne : b ≠ b') :
    crc16CcittFalse (pre ++ b :: suf) ≠ crc16CcittFalse (pre ++ b' :: suf) := by
  rw [crc16CcittFalse, crc16CcittFalse, List.foldl_append, List.foldl_append]
  set c0 := pre.foldl (fun crc b => crcRounds 8 (crc ^^^ (b <<< 8))) 0xffff with hc0
  show (b :: suf).foldl _ c0 ≠ (b' :: suf).foldl _ c0
  have he : b' = b ^^^ (b ^^^ b') := by
    rw [← Nat.xor_assoc, Nat.xor_self, Nat.zero_xor]
  set e := b ^^^ b' with hedef
  have hez : e ≠ 0 := fun h => hne (Nat.xor_eq_zero.mp h)
  have helt : e <<< 8 < 65536 := by
    have : e < 256 := Nat.xor_lt_two_pow (n := 8) hb hb'
    rw [Nat.shiftLeft_eq]
    omega
  have henz : e <<< 8 ≠ 0 := by
    rw [Nat.shiftLeft_eq]
    intro h
    exact hez (by omega)
  show suf.foldl _ (crcRounds 8 (c0 ^^^ b <<< 8)) ≠
    suf.foldl _ (crcRounds 8 (c0 ^^^ b' <<< 8))
  have hsplit : c0 ^^^ b' <<< 8 = (c0 ^^^ b <<< 8) ^^^ e <<< 8 := by
    rw [he, shiftLeft_xor_distrib, ← Nat.xor_assoc]
  have hR : suf.foldl (fun crc b => crcRounds 8 (crc ^^^ (b <<< 8)))
        (crcRounds 8 ((c0 ^^^ b <<< 8) ^^^ e <<< 8)) =
      suf.foldl (fun crc b => crcRounds 8 (crc ^^^ (b <<< 8))) (crcRounds 8 (c0 ^^^ b <<< 8)) ^^^
        crcRounds (8 * suf.length) (crcRounds 8 (e <<< 8)) := by
    rw [crcRounds_xor, crcFold_xor]
  intro hcontra
  rw [hsplit, hR] at hcontra
  set X := suf.foldl (fun crc b => crcRounds 8 (crc ^^^ (b <<< 8)))
    (crcRounds 8 (c0 ^^^ b <<< 8)) with hX
  set D := crcRounds (8 * suf.length) (crcRounds 8 (e <<< 8)) with hD
  have hDnz : D ≠ 0 := by
    rw [hD, crcRounds_add]
    exact crcRounds_ne_zero _ helt henz
  apply hDnz
  have h2 := congrArg (fun x => X ^^^ x) hcontra
  simp only at h2
  rw [Nat.xor_self, ← Nat.xor_assoc, Nat.xor_self, Nat.zero_xor] at h2
  exact h2.symm

theorem crc16_lt (data : List Nat) (hd : ∀ b ∈ data, b < 256) :
    crc16CcittFalse data < 65536 := by
  rw [crc16CcittFalse]
  have main : ∀ (l : List Nat) (c : Nat), (∀ b ∈ l, b < 256) → c < 65536 →
      l.foldl (fun crc b => crcRounds 8 (crc ^^^ (b <<< 8))) c < 65536 := by
    intro l
    induction l with
    | nil => intro c _ hc; exact hc
    | cons b t ih =>
        intro c hl hc
        show t.foldl _ (crcRounds 8 (c ^^^ b <<< 8)) < 65536
        refine ih _ (fun x hx => hl x (by simp [hx])) ?_
        have hb : b < 256 := hl b (by simp)
        have : c ^^^ b <<< 8 < 65536 := by
          have h1 : c < 2 ^ 16 := hc
          have h2 : b <<< 8 < 2 ^ 16 := by rw [Nat.shiftLeft_eq]; omega
          exact Nat.xor_lt_two_pow h1 h2
        exact crcRounds_lt 8 this
  exact main data 0xffff hd (by norm_num)

end Fask

/-! Decoder feeding infrastructure: unfolding lemmas for feedBits and the
per-state single-bit transitions, with the polarity inversion undone. -/

namespace Fask

theorem resync_eq (d : RxBitDecoder) (code : DecoderErrorCode) :
    d.resync code =
      (⟨.search_preamble [], bumpStats d.stats code, d.allowV2Fallback⟩,
        some (.error code)) := by
  cases d
  rfl

theorem invert_correct (inv b : Bool) :
    (if inv then flipBit (Bool.xor b inv) else Bool.xor b inv) = b := by
  cases inv <;> cases b <;> rfl

theorem feedBits_cons {inflate : List Nat → Option (List Nat)} {d : RxBitDecoder} {b : Bool}
    {d1 : RxBitDecoder} {ev : Option DecoderEvent} (rest : Bits)
    (h : d.consumeBit inflate b = (d1, ev)) :
    feedBits inflate d (b :: rest) =
      ((feedBits inflate d1 rest).1, ev.toList ++ (feedBits inflate d1 rest).2) := by
  rw [feedBits, h]

theorem feedBits_nil (inflate : List Nat → Option (List Nat)) (d : RxBitDecoder) :
    feedBits inflate d [] = (d, []) := rfl

theorem feedBits_append (inflate : List Nat → Option (List Nat)) (d : RxBitDecoder)
    (a b : Bits) :
    feedBits inflate d (a ++ b) =
      ((feedBits inflate (feedBits inflate d a).1 b).1,
        (feedBits inflate d a).2 ++ (feedBits inflate (feedBits inflate d a).1 b).2) := by
  induction a generalizing d with
  | nil => simp [feedBits_nil]
  | cons x t ih =>
      rcases hp : d.consumeBit inflate x with ⟨d1, ev⟩
      rw [List.cons_append, feedBits_cons (t ++ b) hp, feedBits_cons t hp, ih]
      simp [List.append_assoc]

theorem applyInv_cons (inv b : Bool) (l : Bits) :
    applyInv inv (b :: l) = Bool.xor b inv :: applyInv inv l := rfl

theorem applyInv_nil (inv : Bool) : applyInv inv [] = [] := rfl

theorem applyInv_false (l : Bits) : applyInv false l = l := by
  induction l with
  | nil => rfl
  | cons b t ih => rw [applyInv_cons, ih, Bool.xor_false]

theorem consume_v3_header_step (inflate : List Nat → Option (List Nat))
    (st : DecoderStats) (fb inv : Bool) (acc : Bits) (b : Bool)
    (h : (acc ++ [b]).length < 32) :
    RxBitDecoder.consumeBit inflate ⟨.read_v3_header acc inv, st, fb⟩ (Bool.xor b inv) =
      (⟨.read_v3_header (acc ++ [b]) inv, st, fb⟩, none) := by
  simp only [RxBitDecoder.consumeBit]
  rw [invert_correct, if_pos h]

theorem parseHeaderV3_lenBytes_le {bits : Bits} {hd : V3Header}
    (h : parseHeaderV3 bits = some hd) : hd.lenBytes ≤ 0x7fff := by
  by_cases h1 : bits.length ≠ 32
  · rw [parseHeaderV3, if_pos h1] at h
    exact absurd h (by simp)
  rw [parseHeaderV3, if_neg h1] at h
  by_cases h2 : bits.take 2 ≠ V3_VERSION_BITS
  · rw [if_pos h2] at h
    exact absurd h (by simp)
  rw [if_neg h2] at h
  by_cases h3 : bitsToNat ((bits.drop 2).take 6) &&& V3_RESERVED_FLAGS_MASK ≠ 0
  · rw [if_pos h3] at h
    exact absurd h (by simp)
  rw [if_neg h3] at h
  by_cases h4 : LEN_VALUE_MASK < bitsToNat ((bits.drop 16).take 16)
  · rw [if_pos h4] at h
    exact absurd h (by simp)
  rw [if_neg h4] at h
  simp only [Option.some.injEq] at h
  rw [← h]
  have h5 : LEN_VALUE_MASK = 0x7fff := rfl
  rw [h5] at h4
  exact Nat.not_lt.mp h4

theorem consume_v3_header_last (inflate : List Nat → Option (List Nat))
    (st : DecoderStats) (fb inv : Bool) (acc : Bits) (b : Bool)
    (h : (acc ++ [b]).length = 32) :
    RxBitDecoder.consumeBit inflate ⟨.read_v3_header acc inv, st, fb⟩ (Bool.xor b inv) =
      match parseHeaderV3 (acc ++ [b]) with
      | some parsed =>
          (⟨.read_v3_payload (acc ++ [b]) parsed.lenBytes parsed.compressed parsed.seq [] inv,
            st, fb⟩, some .status)
      | none =>
          (⟨.search_preamble [], bumpStats st .len_invalid, fb⟩,
            some (.error .len_invalid)) := by
  simp only [RxBitDecoder.consumeBit]
  rw [invert_correct, if_neg (by omega)]
  cases hp : parseHeaderV3 (acc ++ [b]) with
  | none =>
      dsimp only
      rw [resync_eq]
  | some parsed =>
      have hle := parseHeaderV3_lenBytes_le hp
      dsimp only
      have hmax : ¬ MAX_PAYLOAD_BYTES < parsed.lenBytes := Nat.not_lt.mpr hle
      rw [if_neg hmax]

theorem feed_v3_header (inflate : List Nat → Option (List Nat))
    (st : DecoderStats) (fb inv : Bool) (acc l : Bits)
    (hlen : (acc ++ l).length = 32) (hne : l ≠ []) :
    feedBits inflate ⟨.read_v3_header acc inv, st, fb⟩ (applyInv inv l) =
      match parseHeaderV3 (acc ++ l) with
      | some parsed =>
          (⟨.read_v3_payload (acc ++ l) parsed.lenBytes parsed.compressed parsed.seq [] inv,
            st, fb⟩, [.status])
      | none =>
          (⟨.search_preamble [], bumpStats st .len_invalid, fb⟩,
            [.error .len_invalid]) := by
  induction l generalizing acc with
  | nil => exact absurd rfl hne
  | cons b t ih =>
      rw [applyInv_cons]
      cases t with
      | nil =>
          rw [applyInv_nil]
          have hl : (acc ++ [b]).length = 32 := by simpa using hlen
          rw [feedBits_cons [] (consume_v3_header_last inflate st fb inv acc b hl)]
          cases hp : parseHeaderV3 (acc ++ [b]) with
          | none => rfl
          | some parsed => rfl
      | cons c r =>
          have hstep : (acc ++ [b]).length < 32 := by
            simp only [List.length_append, List.length_cons, List.length_nil] at hlen ⊢
            omega
          rw [feedBits_cons _ (consume_v3_header_step inflate st fb inv acc b hstep)]
          have hlen2 : ((acc ++ [b]) ++ (c :: r)).length = 32 := by
            rw [List.append_assoc]
            simpa using hlen
          rw [ih (acc ++ [b]) hlen2 (by simp), List.append_assoc]
          rfl

end Fask

namespace Fask

theorem consume_v3_payload_step (inflate : List Nat → Option (List Nat))
    (st : DecoderStats) (fb inv : Bool) (hB : Bits) (lenB : Nat) (c : Bool) (seq : Nat)
    (acc : Bits) (b : Bool) (h : (acc ++ [b]).length < lenB * 8) :
    RxBitDecoder.consumeBit inflate
        ⟨.read_v3_payload hB lenB c seq acc inv, st, fb⟩ (Bool.xor b inv) =
      (⟨.read_v3_payload hB lenB c seq (acc ++ [b]) inv, st, fb⟩, none) := by
  simp only [RxBitDecoder.consumeBit]
  rw [invert_correct, if_pos h]

theorem consume_v3_payload_last (inflate : List Nat → Option (List Nat))
    (st : DecoderStats) (fb inv : Bool) (hB : Bits) (lenB : Nat) (c : Bool) (seq : Nat)
    (acc : Bits) (b : Bool) (h : ¬(acc ++ [b]).length < lenB * 8) :
    RxBitDecoder.consumeBit inflate
        ⟨.read_v3_payload hB lenB c seq acc inv, st, fb⟩ (Bool.xor b inv) =
      (⟨.read_v3_crc hB ((acc ++ [b]).take (lenB * 8)) c seq [] inv, st, fb⟩,
        some .status) := by
  simp only [RxBitDecoder.consumeBit]
  rw [invert_correct, if_neg h]

theorem feed_v3_payload (inflate : List Nat → Option (List Nat))
    (st : DecoderStats) (fb inv : Bool) (hB : Bits) (lenB : Nat) (c : Bool) (seq : Nat)
    (acc l : Bits) (hlen : (acc ++ l).length = lenB * 8) (hne : l ≠ []) :
    feedBits inflate ⟨.read_v3_payload hB lenB c seq acc inv, st, fb⟩ (applyInv inv l) =
      (⟨.read_v3_crc hB (acc ++ l) c seq [] inv, st, fb⟩, [.status]) := by
  induction l generalizing acc with
  | nil => exact absurd rfl hne
  | cons b t ih =>
      rw [applyInv_cons]
      cases t with
      | nil =>
          rw [applyInv_nil]
          have hl : (acc ++ [b]).length = lenB * 8 := by simpa using hlen
          rw [feedBits_cons []
            (consume_v3_payload_last inflate st fb inv hB lenB c seq acc b (by omega))]
          rw [← hl, List.take_length]
          rfl
      | cons x r =>
          have hstep : (acc ++ [b]).length < lenB * 8 := by
            simp only [List.length_append, List.length_cons, List.length_nil] at hlen ⊢
            omega
          rw [feedBits_cons _
            (consume_v3_payload_step inflate st fb inv hB lenB c seq acc b hstep)]
          have hlen2 : ((acc ++ [b]) ++ (x :: r)).length = lenB * 8 := by
            rw [List.append_assoc]
            simpa using hlen
          rw [ih (acc ++ [b]) hlen2 (by simp), List.append_assoc]
          rfl

theorem consume_v3_crc_step (inflate : List Nat → Option (List Nat))
    (st : DecoderStats) (fb inv : Bool) (hB pB : Bits) (c : Bool) (seq : Nat)
    (acc : Bits) (b : Bool) (h : (acc ++ [b]).length < 16) :
    RxBitDecoder.consumeBit inflate
        ⟨.read_v3_crc hB pB c seq acc inv, st, fb⟩ (Bool.xor b inv) =
      (⟨.read_v3_crc hB pB c seq (acc ++ [b]) inv, st, fb⟩, none) := by
  simp only [RxBitDecoder.consumeBit]
  rw [invert_correct, if_pos h]

theorem consume_v3_crc_last (inflate : List Nat → Option (List Nat))
    (st : DecoderStats) (fb inv : Bool) (hB pB : Bits) (c : Bool) (seq : Nat)
    (acc : Bits) (b : Bool) (h : ¬(acc ++ [b]).length < 16) :
    RxBitDecoder.consumeBit inflate
        ⟨.read_v3_crc hB pB c seq acc inv, st, fb⟩ (Bool.xor b inv) =
      (if verifyCrc16 hB pB ((acc ++ [b]).take 16) then
        match decodePayload inflate pB c with
        | some text =>
            (⟨.search_preamble [], { st with okFrames := st.okFrames + 1 }, fb⟩,
              some (.frame ⟨text, .v3, c, pB.length / 8, some seq⟩))
        | none =>
            (⟨.search_preamble [], bumpStats st .decode_fail, fb⟩,
              some (.error .decode_fail))
      else
        (⟨.search_preamble [], bumpStats st .crc_fail, fb⟩,
          some (.error .crc_fail))) := by
  simp only [RxBitDecoder.consumeBit]
  rw [invert_correct, if_neg h]
  by_cases hv : verifyCrc16 hB pB ((acc ++ [b]).take 16)
  · rw [if_pos hv, if_pos hv]
    cases hd : decodePayload inflate pB c with
    | none =>
        dsimp only
        rw [resync_eq]
    | some text => rfl
  · rw [if_neg hv, if_neg hv]
    rw [resync_eq]

theorem feed_v3_crc (inflate : List Nat → Option (List Nat))
    (st : DecoderStats) (fb inv : Bool) (hB pB : Bits) (c : Bool) (seq : Nat)
    (acc l : Bits) (hlen : (acc ++ l).length = 16) (hne : l ≠ []) :
    feedBits inflate ⟨.read_v3_crc hB pB c seq acc inv, st, fb⟩ (applyInv inv l) =
      (if verifyCrc16 hB pB (acc ++ l) then
        match decodePayload inflate pB c with
        | some text =>
            (⟨.search_preamble [], { st with okFrames := st.okFrames + 1 }, fb⟩,
              [.frame ⟨text, .v3, c, pB.length / 8, some seq⟩])
        | none =>
            (⟨.search_preamble [], bumpStats st .decode_fail, fb⟩,
              [.error .decode_fail])
      else
        (⟨.search_preamble [], bumpStats st .crc_fail, fb⟩,
          [.error .crc_fail])) := by
  induction l generalizing acc with
  | nil => exact absurd rfl hne
  | cons b t ih =>
      rw [applyInv_cons]
      cases t with
      | nil =>
          rw [applyInv_nil]
          have hl : (acc ++ [b]).length = 16 := by simpa using hlen
          have hlast := consume_v3_crc_last inflate st fb inv hB pB c seq acc b (by omega)
          have htake : (acc ++ [b]).take 16 = acc ++ [b] := by
            rw [← hl, List.take_length]
          rw [htake] at hlast
          by_cases hv : verifyCrc16 hB pB (acc ++ [b])
          · rw [if_pos hv] at hlast
            cases hd : decodePayload inflate pB c with
            | some text =>
                rw [hd] at hlast
                dsimp only at hlast
                rw [feedBits_cons [] hlast, if_pos hv]
                rfl
            | none =>
                rw [hd] at hlast
                dsimp only at hlast
                rw [feedBits_cons [] hlast, if_pos hv]
                rfl
          · rw [if_neg hv] at hlast
            rw [feedBits_cons [] hlast, if_neg hv]
            rfl
      | cons x r =>
          have hstep : (acc ++ [b]).length < 16 := by
            simp only [List.length_append, List.length_cons, List.length_nil] at hlen ⊢
            omega
          rw [feedBits_cons _
            (consume_v3_crc_step inflate st fb inv hB pB c seq acc b hstep)]
          have hlen2 : ((acc ++ [b]) ++ (x :: r)).length = 16 := by
            rw [List.append_assoc]
            simpa using hlen
          rw [ih (acc ++ [b]) hlen2 (by simp), List.append_assoc]
          rfl

theorem consume_v2_len_step (inflate : List Nat → Option (List Nat))
    (st : DecoderStats) (fb inv : Bool) (acc : Bits) (b : Bool)
    (h : (acc ++ [b]).length < 16) :
    RxBitDecoder.consumeBit inflate ⟨.read_v2_len acc inv, st, fb⟩ (Bool.xor b inv) =
      (⟨.read_v2_len (acc ++ [b]) inv, st, fb⟩, none) := by
  simp only [RxBitDecoder.consumeBit]
  rw [invert_correct, if_pos h]

theorem consume_v2_len_last (inflate : List Nat → Option (List Nat))
    (st : DecoderStats) (fb inv : Bool) (acc : Bits) (b : Bool)
    (h : ¬(acc ++ [b]).length < 16) :
    RxBitDecoder.consumeBit inflate ⟨.read_v2_len acc inv, st, fb⟩ (Bool.xor b inv) =
      (if MAX_PAYLOAD_BYTES < (parseLenFlagU16 (acc ++ [b])).2 then
        (⟨.search_preamble [], bumpStats st .len_invalid, fb⟩, some (.error .len_invalid))
      else
        (⟨.read_v2_payload (parseLenFlagU16 (acc ++ [b])).2 (parseLenFlagU16 (acc ++ [b])).1
            [] inv, st, fb⟩, some .status)) := by
  simp only [RxBitDecoder.consumeBit]
  rw [invert_correct, if_neg h]
  by_cases hm : MAX_PAYLOAD_BYTES < (parseLenFlagU16 (acc ++ [b])).2
  · rw [if_pos hm, if_pos hm, resync_eq]
  · rw [if_neg hm, if_neg hm]

theorem feed_v2_len (inflate : List Nat → Option (List Nat))
    (st : DecoderStats) (fb inv : Bool) (acc l : Bits)
    (hlen : (acc ++ l).length = 16) (hne : l ≠ []) :
    feedBits inflate ⟨.read_v2_len acc inv, st, fb⟩ (applyInv inv l) =
      (if MAX_PAYLOAD_BYTES < (parseLenFlagU16 (acc ++ l)).2 then
        (⟨.search_preamble [], bumpStats st .len_invalid, fb⟩, [.error .len_invalid])
      else
        (⟨.read_v2_payload (parseLenFlagU16 (acc ++ l)).2 (parseLenFlagU16 (acc ++ l)).1
            [] inv, st, fb⟩, [.status])) := by
  induction l generalizing acc with
  | nil => exact absurd rfl hne
  | cons b t ih =>
      rw [applyInv_cons]
      cases t with
      | nil =>
          rw [applyInv_nil]
          have hlast := consume_v2_len_last inflate st fb inv acc b
            (by simp at hlen ⊢; omega)
          by_cases hm : MAX_PAYLOAD_BYTES < (parseLenFlagU16 (acc ++ [b])).2
          · rw [if_pos hm] at hlast
            rw [feedBits_cons [] hlast, if_pos hm]
            rfl
          · rw [if_neg hm] at hlast
            rw [feedBits_cons [] hlast, if_neg hm]
            rfl
      | cons x r =>
          have hstep : (acc ++ [b]).length < 16 := by
            simp only [List.length_append, List.length_cons, List.length_nil] at hlen ⊢
            omega
          rw [feedBits_cons _ (consume_v2_len_step inflate st fb inv acc b hstep)]
          have hlen2 : ((acc ++ [b]) ++ (x :: r)).length = 16 := by
            rw [List.append_assoc]
            simpa using hlen
          rw [ih (acc ++ [b]) hlen2 (by simp), List.append_assoc]
          rfl

theorem consume_v2_payload_step (inflate : List Nat → Option (List Nat))
    (st : DecoderStats) (fb inv : Bool) (lenB : Nat) (c : Bool)
    (acc : Bits) (b : Bool) (h : (acc ++ [b]).length < lenB * 8) :
    RxBitDecoder.consumeBit inflate
        ⟨.read_v2_payload lenB c acc inv, st, fb⟩ (Bool.xor b inv) =
      (⟨.read_v2_payload lenB c (acc ++ [b]) inv, st, fb⟩, none) := by
  simp only [RxBitDecoder.consumeBit]
  rw [invert_correct, if_pos h]

theorem consume_v2_payload_last (inflate : List Nat → Option (List Nat))
    (st : DecoderStats) (fb inv : Bool) (lenB : Nat) (c : Bool)
    (acc : Bits) (b : Bool) (h : ¬(acc ++ [b]).length < lenB * 8) :
    RxBitDecoder.consumeBit inflate
        ⟨.read_v2_payload lenB c acc inv, st, fb⟩ (Bool.xor b inv) =
      (match decodePayload inflate ((acc ++ [b]).take (lenB * 8)) c with
       | some text =>
          (⟨.search_preamble [], { st with okFrames := st.okFrames + 1 }, fb⟩,
            some (.frame ⟨text, .v2, c, lenB, none⟩))
       | none =>
          (⟨.search_preamble [], bumpStats st .decode_fail, fb⟩,
            some (.error .decode_fail))) := by
  simp only [RxBitDecoder.consumeBit]
  rw [invert_correct, if_neg h]
  cases hd : decodePayload inflate ((acc ++ [b]).take (lenB * 8)) c with
  | none =>
      dsimp only
      rw [resync_eq]
  | some text => rfl

theorem feed_v2_payload (inflate : List Nat → Option (List Nat))
    (st : DecoderStats) (fb inv : Bool) (lenB : Nat) (c : Bool)
    (acc l : Bits) (hlen : (acc ++ l).length = lenB * 8) (hne : l ≠ []) :
    feedBits inflate ⟨.read_v2_payload lenB c acc inv, st, fb⟩ (applyInv inv l) =
      (match decodePayload inflate (acc ++ l) c with
       | some text =>
          (⟨.search_preamble [], { st with okFrames := st.okFrames + 1 }, fb⟩,
            [.frame ⟨text, .v2, c, lenB, none⟩])
       | none =>
          (⟨.search_preamble [], bumpStats st .decode_fail, fb⟩,
            [.error .decode_fail])) := by
  induction l generalizing acc with
  | nil => exact absurd rfl hne
  | cons b t ih =>
      rw [applyInv_cons]
      cases t with
      | nil =>
          rw [applyInv_nil]
          have hl : (acc ++ [b]).length = lenB * 8 := by simpa using hlen
          have hlast := consume_v2_payload_last inflate st fb inv lenB c acc b (by omega)
          have htake : (acc ++ [b]).take (lenB * 8) = acc ++ [b] := by
            rw [← hl, List.take_length]
          rw [htake] at hlast
          cases hd : decodePayload inflate (acc ++ [b]) c with
          | some text =>
              rw [hd] at hlast
              dsimp only at hlast
              rw [feedBits_cons [] hlast]
              rfl
          | none =>
              rw [hd] at hlast
              dsimp only at hlast
              rw [feedBits_cons [] hlast]
              rfl
      | cons x r =>
          have hstep : (acc ++ [b]).length < lenB * 8 := by
            simp only [List.length_append, List.length_cons, List.length_nil] at hlen ⊢
            omega
          rw [feedBits_cons _
            (consume_v2_payload_step inflate st fb inv lenB c acc b hstep)]
          have hlen2 : ((acc ++ [b]) ++ (x :: r)).length = lenB * 8 := by
            rw [List.append_assoc]
            simpa using hlen
          rw [ih (acc ++ [b]) hlen2 (by simp), List.append_assoc]
          rfl

theorem feed_preamble (inflate : List Nat → Option (List Nat))
    (st : DecoderStats) (fb : Bool) :
    feedBits inflate ⟨.search_preamble [], st, fb⟩ PREAMBLE_BITS_V2 =
      (⟨.search_sync [] false, st, fb⟩, [.status]) := rfl

theorem feed_preamble_inverted (inflate : List Nat → Option (List Nat))
    (st : DecoderStats) (fb : Bool) :
    feedBits inflate ⟨.search_preamble [], st, fb⟩ INVERTED_PREAMBLE_BITS =
      (⟨.search_sync [] true, st, fb⟩, [.status]) := rfl

theorem feed_sync_v3 (inflate : List Nat → Option (List Nat))
    (st : DecoderStats) (fb inv : Bool) :
    feedBits inflate ⟨.search_sync [] inv, st, fb⟩ (applyInv inv SYNC_BITS_V3) =
      (⟨.read_v3_header [] inv, st, fb⟩, [.status]) := by
  cases inv <;> cases fb <;> rfl

theorem feed_sync_v2 (inflate : List Nat → Option (List Nat))
    (st : DecoderStats) (inv : Bool) :
    feedBits inflate ⟨.search_sync [] inv, st, true⟩ (applyInv inv SYNC_BITS_V2) =
      (⟨.read_v2_len [] inv, st, true⟩, [.status]) := by
  cases inv <;> rfl

end Fask

/-! Parsing the bit fields that the encoder built recovers the encoded
values. -/

namespace Fask

theorem and_two_pow_sub_one_eq_mod (x k : Nat) : x &&& (2 ^ k - 1) = x % 2 ^ k := by
  apply Nat.eq_of_testBit_eq
  intro i
  rw [Nat.testBit_and, Nat.testBit_two_pow_sub_one, Nat.testBit_mod_two_pow]
  rw [Bool.and_comm]

theorem length_buildHeaderV3Bits (c : Bool) (seq len : Nat) :
    (buildHeaderV3Bits c seq len).length = 32 := by
  cases c <;> rfl

theorem parseHeaderV3_build (c : Bool) (seq len : Nat) (hseq : seq < 256)
    (hlen : len ≤ 0x7fff) :
    parseHeaderV3 (buildHeaderV3Bits c seq len) =
      some ⟨if c then 1 else 0, c, seq, len⟩ := by
  have h8 : seq < 2 ^ 8 := by omega
  have h16 : len < 2 ^ 16 := by omega
  have hflag : (if c then 1 else 0 : Nat) < 2 ^ 6 := by cases c <;> norm_num
  have hslice1 : ((buildHeaderV3Bits c seq len).drop 2).take 6 =
      natToBits 6 (if c then 1 else 0) := by cases c <;> rfl
  have hslice2 : ((buildHeaderV3Bits c seq len).drop 8).take 8 = natToBits 8 seq := by
    cases c <;> rfl
  have hslice3 : ((buildHeaderV3Bits c seq len).drop 16).take 16 = natToBits 16 len := by
    cases c <;> rfl
  have htake2 : (buildHeaderV3Bits c seq len).take 2 = V3_VERSION_BITS := by
    cases c <;> rfl
  rw [parseHeaderV3,
    if_neg (show ¬(buildHeaderV3Bits c seq len).length ≠ 32 by
      rw [length_buildHeaderV3Bits]; omega)]
  simp only [htake2, hslice1, hslice2, hslice3]
  rw [if_neg (show ¬V3_VERSION_BITS ≠ V3_VERSION_BITS by simp),
    bitsToNat_natToBits hflag, bitsToNat_natToBits h8, bitsToNat_natToBits h16]
  rw [if_neg (show ¬(if c then 1 else 0 : Nat) &&& V3_RESERVED_FLAGS_MASK ≠ 0 by
      cases c <;> decide)]
  rw [if_neg (show ¬LEN_VALUE_MASK < len from by
      have : LEN_VALUE_MASK = 0x7fff := rfl
      omega)]
  have hcmp : ((if c then 1 else 0 : Nat) &&& 1 ≠ 0) = (c = true) := by
    cases c <;> simp
  congr 1
  cases c <;> simp

theorem parseLenFlagU16_build (c : Bool) (len : Nat) (hlen : len ≤ 0x7fff) :
    parseLenFlagU16 (u16ToBits ((if c then LEN_FLAG_MASK else 0) ||| len)) =
      (c, len) := by
  have h15 : len < 2 ^ 15 := by
    have : LEN_FLAG_MASK = 0x8000 := rfl
    omega
  have hval : (if c then LEN_FLAG_MASK else 0) ||| len < 2 ^ 16 := by
    apply Nat.or_lt_two_pow
    · cases c <;> simp [LEN_FLAG_MASK]
    · omega
  rw [parseLenFlagU16, u16ToBits, bitsToNat_natToBits hval]
  cases c with
  | false =>
      rw [if_neg (by simp), Nat.zero_or]
      have hA : len &&& LEN_FLAG_MASK = 0 := by
        have : LEN_FLAG_MASK = 2 ^ 15 := rfl
        rw [this, Nat.and_two_pow, Nat.testBit_lt_two_pow h15]
        rfl
      have hB : len &&& LEN_VALUE_MASK = len := by
        have : LEN_VALUE_MASK = 2 ^ 15 - 1 := rfl
        rw [this, and_two_pow_sub_one_eq_mod, Nat.mod_eq_of_lt h15]
      rw [hA, hB]
      simp
  | true =>
      rw [if_pos rfl]
      have hA : (LEN_FLAG_MASK ||| len) &&& LEN_FLAG_MASK ≠ 0 := by
        have h2 : LEN_FLAG_MASK = 2 ^ 15 := rfl
        rw [h2, Nat.and_two_pow, Nat.testBit_or]
        rw [Nat.testBit_two_pow]
        simp
      have hB : (LEN_FLAG_MASK ||| len) &&& LEN_VALUE_MASK = len := by
        apply Nat.eq_of_testBit_eq
        intro i
        have h2 : LEN_FLAG_MASK = 2 ^ 15 := rfl
        have h3 : LEN_VALUE_MASK = 2 ^ 15 - 1 := rfl
        rw [Nat.testBit_and, Nat.testBit_or, h2, h3, Nat.testBit_two_pow,
          Nat.testBit_two_pow_sub_one]
        by_cases hi : i < 15
        · simp [show ¬(15 = i) by omega, hi]
        · have hfalse : len.testBit i = false := by
            apply Nat.testBit_lt_two_pow
            calc len < 2 ^ 15 := h15
            _ ≤ 2 ^ i := Nat.pow_le_pow_right (by norm_num) (by omega)
          simp [hfalse, hi]
      rw [hB]
      simp [hA]

theorem bitStreamToBytes_total (bits : Bits) (h : bits.length % 8 = 0) :
    ∃ bs, bitStreamToBytes bits = some bs ∧ bs.length = bits.length / 8 ∧
      ∀ b ∈ bs, b < 256 := by
  induction bits using bitStreamToBytes.induct with
  | case1 => exact ⟨[], rfl, rfl, by simp⟩
  | case2 b0 b1 b2 b3 b4 b5 b6 b7 rest ih =>
      have hr : rest.length % 8 = 0 := by
        simp only [List.length_cons] at h
        omega
      obtain ⟨bs, hbs, hlen, hb⟩ := ih hr
      refine ⟨bitsToNat [b0, b1, b2, b3, b4, b5, b6, b7] :: bs, ?_, ?_, ?_⟩
      · rw [bitStreamToBytes, hbs]
        rfl
      · simp only [List.length_cons, hlen]
        omega
      · intro x hx
        rcases List.mem_cons.mp hx with hx | hx
        · rw [hx]
          have := bitsToNat_lt [b0, b1, b2, b3, b4, b5, b6, b7]
          simpa using this
        · exact hb x hx
  | case3 t h1 h2 =>
      exfalso
      rcases t with _ | ⟨b0, t⟩
      · exact h1 rfl
      rcases t with _ | ⟨b1, t⟩
      · simp at h
      rcases t with _ | ⟨b2, t⟩
      · simp at h
      rcases t with _ | ⟨b3, t⟩
      · simp at h
      rcases t with _ | ⟨b4, t⟩
      · simp at h
      rcases t with _ | ⟨b5, t⟩
      · simp at h
      rcases t with _ | ⟨b6, t⟩
      · simp at h
      rcases t with _ | ⟨b7, t⟩
      · simp at h
      exact h2 b0 b1 b2 b3 b4 b5 b6 b7 t rfl

end Fask

/-! End-to-end frame simulations. -/

namespace Fask

theorem applyInv_append (inv : Bool) (a b : Bits) :
    applyInv inv (a ++ b) = applyInv inv a ++ applyInv inv b := by
  simp [applyInv]

theorem verifyCrc16_calc {hB pB cb : Bits}
    (hc : calculateV3Crc16Bits hB pB = some cb) : verifyCrc16 hB pB cb = true := by
  have hlen : cb.length = 16 := by
    rw [calculateV3Crc16Bits] at hc
    cases hb : bitStreamToBytes (hB ++ pB) with
    | none => rw [hb] at hc; simp at hc
    | some bytes =>
        rw [hb] at hc
        simp only [Option.map_some', Option.some.injEq] at hc
        rw [← hc, u16ToBits, length_natToBits]
  rw [verifyCrc16, if_neg (by omega), hc]
  simp

theorem feed_v3_frame (inflate : List Nat → Option (List Nat))
    (st : DecoderStats) (fb inv : Bool) (payload : List Nat) (c : Bool)
    (seq len : Nat) (crcBits : Bits) (decBytes : List Nat)
    (hseq : seq < 256) (hplen : payload.length = len) (hl1 : 1 ≤ len)
    (hl2 : len ≤ 0x7fff) (hbytes : ∀ b ∈ payload, b < 256)
    (hcrc : calculateV3Crc16Bits (buildHeaderV3Bits c seq len)
      (bytesToBitStream payload) = some crcBits)
    (hdec : (if c then inflate payload else some payload) = some decBytes) :
    feedBits inflate ⟨.search_sync [] inv, st, fb⟩
        (applyInv inv (SYNC_BITS_V3 ++ (buildHeaderV3Bits c seq len ++
          (bytesToBitStream payload ++ crcBits)))) =
      (⟨.search_preamble [], { st with okFrames := st.okFrames + 1 }, fb⟩,
        [.status, .status, .status,
          .frame ⟨utf8DecodeReplace decBytes, .v3, c, len, some seq⟩]) := by
  rw [applyInv_append, applyInv_append, applyInv_append]
  rw [feedBits_append, feed_sync_v3]
  rw [feedBits_append]
  have hhdr := feed_v3_header inflate st fb inv [] (buildHeaderV3Bits c seq len)
    (by rw [List.nil_append, length_buildHeaderV3Bits])
    (by cases c <;> simp [buildHeaderV3Bits, V3_VERSION_BITS])
  rw [List.nil_append, parseHeaderV3_build c seq len hseq hl2] at hhdr
  dsimp only at hhdr
  rw [hhdr]
  rw [feedBits_append]
  have hpl := feed_v3_payload inflate st fb inv (buildHeaderV3Bits c seq len) len c seq
    [] (bytesToBitStream payload)
    (by rw [List.nil_append, length_bytesToBitStream, hplen]; ring)
    (by intro hcontra
        have hlb := length_bytesToBitStream payload
        rw [hcontra, hplen] at hlb
        simp only [List.length_nil] at hlb
        omega)
  rw [List.nil_append] at hpl
  rw [hpl]
  have hcb := feed_v3_crc inflate st fb inv (buildHeaderV3Bits c seq len)
    (bytesToBitStream payload) c seq [] crcBits
    (by rw [List.nil_append]
        rw [calculateV3Crc16Bits] at hcrc
        cases hb : bitStreamToBytes (buildHeaderV3Bits c seq len ++ bytesToBitStream payload) with
        | none => rw [hb] at hcrc; simp at hcrc
        | some bytes =>
            rw [hb] at hcrc
            simp only [Option.map_some', Option.some.injEq] at hcrc
            rw [← hcrc, u16ToBits, length_natToBits])
    (by intro hcontra
        have hv := verifyCrc16_calc hcrc
        rw [hcontra, verifyCrc16] at hv
        simp at hv)
  rw [List.nil_append] at hcb
  rw [hcb, if_pos (verifyCrc16_calc hcrc)]
  have hdp : decodePayload inflate (bytesToBitStream payload) c = some (utf8DecodeReplace decBytes) := by
    rw [decodePayload, bitStreamToBytes_bytesToBitStream payload hbytes]
    cases c with
    | false =>
        simp only [Bool.false_eq_true, if_false] at hdec
        simp only [Option.some.injEq] at hdec
        subst hdec
        rfl
    | true =>
        simp at hdec
        show ((inflate payload).bind fun decodedBytes =>
          some (utf8DecodeReplace decodedBytes)) = _
        rw [hdec]
        rfl
  rw [hdp]
  have hdiv : (bytesToBitStream payload).length / 8 = len := by
    rw [length_bytesToBitStream, hplen]
    omega
  rw [hdiv]
  rfl

end Fask

namespace Fask

theorem pickPayload_compressed (deflate : List Nat → List Nat) (raw : List Nat) :
    (pickPayload deflate raw).compressed =
      decide (COMPRESS_MIN_RAW_BYTES ≤ raw.length ∧
        (deflate raw).length + COMPRESS_MIN_GAIN_BYTES < raw.length) := rfl

theorem pickPayload_payload (deflate : List Nat → List Nat) (raw : List Nat) :
    (pickPayload deflate raw).payload =
      if (pickPayload deflate raw).compressed then deflate raw else raw := rfl

theorem pickPayload_bytes_lt {deflate : List Nat → List Nat} {raw : List Nat}
    (hraw : ∀ b ∈ raw, b < 256) (hdef : ∀ b ∈ deflate raw, b < 256) :
    ∀ b ∈ (pickPayload deflate raw).payload, b < 256 := by
  rw [pickPayload_payload]
  intro b hb
  by_cases hc : (pickPayload deflate raw).compressed
  · rw [if_pos hc] at hb
    exact hdef b hb
  · rw [if_neg hc] at hb
    exact hraw b hb

theorem buildFrameBitsV3_ok {deflate : List Nat → List Nat} {T : List Nat} {S : Nat}
    {f : EncodedFrameV3} (hf : buildFrameBitsV3 deflate T S = .ok f) :
    (utf8Encode T).length ≤ 0x7fff ∧
    (pickPayload deflate (utf8Encode T)).payload.length ≤ 0x7fff ∧
    f.compressed = (pickPayload deflate (utf8Encode T)).compressed ∧
    f.txBytes = (pickPayload deflate (utf8Encode T)).payload.length ∧
    f.rawBytes = (utf8Encode T).length ∧
    f.seq = S % 256 ∧
    f.payloadBits = bytesToBitStream (pickPayload deflate (utf8Encode T)).payload ∧
    ∃ crcBits,
      calculateV3Crc16Bits
        (buildHeaderV3Bits (pickPayload deflate (utf8Encode T)).compressed (S % 256)
          (pickPayload deflate (utf8Encode T)).payload.length)
        (bytesToBitStream (pickPayload deflate (utf8Encode T)).payload) = some crcBits ∧
      f.crc16 = bitsToNat crcBits ∧
      f.bits = PREAMBLE_BITS_V2 ++ SYNC_BITS_V3 ++
        buildHeaderV3Bits (pickPayload deflate (utf8Encode T)).compressed (S % 256)
          (pickPayload deflate (utf8Encode T)).payload.length ++
        bytesToBitStream (pickPayload deflate (utf8Encode T)).payload ++ crcBits := by
  simp only [buildFrameBitsV3] at hf
  by_cases h1 : LEN_VALUE_MASK < (utf8Encode T).length
  · rw [if_pos h1] at hf
    exact absurd hf (by simp)
  rw [if_neg h1] at hf
  by_cases h2 : LEN_VALUE_MASK < (pickPayload deflate (utf8Encode T)).payload.length
  · rw [if_pos h2] at hf
    exact absurd hf (by simp)
  rw [if_neg h2] at hf
  cases hcalc : calculateV3Crc16Bits
      (buildHeaderV3Bits (pickPayload deflate (utf8Encode T)).compressed (S % 256)
        (pickPayload deflate (utf8Encode T)).payload.length)
      (bytesToBitStream (pickPayload deflate (utf8Encode T)).payload) with
  | none =>
      rw [hcalc] at hf
      exact absurd hf (by simp)
  | some cb =>
      rw [hcalc] at hf
      simp only [Except.ok.injEq] at hf
      subst hf
      have hlv : LEN_VALUE_MASK = 0x7fff := rfl
      refine ⟨by omega, by omega, rfl, rfl, rfl, rfl, rfl, cb, rfl, rfl, rfl⟩

theorem buildFrameBitsV2_ok {deflate : List Nat → List Nat} {T : List Nat}
    {f : EncodedFrameV2} (hf : buildFrameBitsV2 deflate T = .ok f) :
    (utf8Encode T).length ≤ 0x7fff ∧
    (pickPayload deflate (utf8Encode T)).payload.length ≤ 0x7fff ∧
    f.compressed = (pickPayload deflate (utf8Encode T)).compressed ∧
    f.txBytes = (pickPayload deflate (utf8Encode T)).payload.length ∧
    f.rawBytes = (utf8Encode T).length ∧
    f.payloadBits = bytesToBitStream (pickPayload deflate (utf8Encode T)).payload ∧
    f.bits = PREAMBLE_BITS_V2 ++ SYNC_BITS_V2 ++
      u16ToBits ((if (pickPayload deflate (utf8Encode T)).compressed then LEN_FLAG_MASK
        else 0) ||| (pickPayload deflate (utf8Encode T)).payload.length) ++
      bytesToBitStream (pickPayload deflate (utf8Encode T)).payload := by
  simp only [buildFrameBitsV2] at hf
  by_cases h1 : LEN_VALUE_MASK < (utf8Encode T).length
  · rw [if_pos h1] at hf
    exact absurd hf (by simp)
  rw [if_neg h1] at hf
  by_cases h2 : LEN_VALUE_MASK < (pickPayload deflate (utf8Encode T)).payload.length
  · rw [if_pos h2] at hf
    exact absurd hf (by simp)
  rw [if_neg h2] at hf
  simp only [Except.ok.injEq] at hf
  subst hf
  have hlv : LEN_VALUE_MASK = 0x7fff := rfl
  exact ⟨by omega, by omega, rfl, rfl, rfl, rfl, rfl⟩

theorem feed_full_v3_frame (inflate : List Nat → Option (List Nat))
    (st : DecoderStats) (fb : Bool) (payload : List Nat) (c : Bool)
    (seq len : Nat) (crcBits : Bits) (decBytes : List Nat)
    (hseq : seq < 256) (hplen : payload.length = len) (hl1 : 1 ≤ len)
    (hl2 : len ≤ 0x7fff) (hbytes : ∀ b ∈ payload, b < 256)
    (hcrc : calculateV3Crc16Bits (buildHeaderV3Bits c seq len)
      (bytesToBitStream payload) = some crcBits)
    (hdec : (if c then inflate payload else some payload) = some decBytes) :
    feedBits inflate ⟨.search_preamble [], st, fb⟩
        (PREAMBLE_BITS_V2 ++ SYNC_BITS_V3 ++ buildHeaderV3Bits c seq len ++
          bytesToBitStream payload ++ crcBits) =
      (⟨.search_preamble [], { st with okFrames := st.okFrames + 1 }, fb⟩,
        [.status, .status, .status, .status,
          .frame ⟨utf8DecodeReplace decBytes, .v3, c, len, some seq⟩]) := by
  have hassoc : PREAMBLE_BITS_V2 ++ SYNC_BITS_V3 ++ buildHeaderV3Bits c seq len ++
      bytesToBitStream payload ++ crcBits =
      PREAMBLE_BITS_V2 ++ (SYNC_BITS_V3 ++ (buildHeaderV3Bits c seq len ++
        (bytesToBitStream payload ++ crcBits))) := by
    simp [List.append_assoc]
  rw [hassoc, feedBits_append, feed_preamble]
  have hmain := feed_v3_frame inflate st fb false payload c seq len crcBits decBytes
    hseq hplen hl1 hl2 hbytes hcrc hdec
  rw [applyInv_false] at hmain
  rw [hmain]
  rfl

end Fask

/-! Claim C1: V3 round trip. -/

namespace Fask

/-- C1 (counterexample): the round-trip claim fails for the empty text. The
encoder accepts it (raw length 0 ≤ 32767), but feeding the resulting 96-bit
frame to a fresh decoder yields no frame event and okFrames stays 0: with
lenBytes = 0 the read_v3_payload state consumes and discards the first CRC
bit, so CRC verification never completes. -/
theorem c1_roundtrip_empty_ce :
    ∃ f, buildFrameBitsV3 idDeflate [] 0 = .ok f ∧
      (feedBits someInflate (RxBitDecoder.init false) f.bits).1.stats.okFrames = 0 ∧
      (feedBits someInflate (RxBitDecoder.init false) f.bits).2 =
        [.status, .status, .status, .status] :=
  ⟨_, rfl, rfl, rfl⟩

/-- C1 (amended: the claim holds whenever the transmitted payload is at least
one byte, i.e. f.txBytes ≥ 1; the original claim fails for an empty payload):
for every scalar text T with buildFrameBitsV3 deflate T S = .ok f, seq S in
[0,255], inflate inverting deflate, and byte-valued deflate output, feeding
f.bits into a fresh RxBitDecoder yields exactly the events
[status, status, status, status, frame] with the frame carrying text = T,
version = v3, the encoder's compressed flag, lenBytes = f.txBytes and
seq = S, and the final stats count exactly one ok frame and no errors. -/
theorem c1_v3_roundtrip
    (deflate : List Nat → List Nat) (inflate : List Nat → Option (List Nat))
    (T : List Nat) (S : Nat) (f : EncodedFrameV3) (fb : Bool)
    (hscal : ∀ v ∈ T, isScalar v)
    (hS : S ≤ 255)
    (hinf : ∀ bs, inflate (deflate bs) = some bs)
    (hdef : ∀ b ∈ deflate (utf8Encode T), b < 256)
    (hf : buildFrameBitsV3 deflate T S = .ok f)
    (hne : 1 ≤ f.txBytes) :
    feedBits inflate (RxBitDecoder.init fb) f.bits =
      (⟨.search_preamble [], ⟨1, 0, 0, 0, 0, 0, none⟩, fb⟩,
        [.status, .status, .status, .status,
          .frame ⟨T, .v3, f.compressed, f.txBytes, some S⟩]) := by
  obtain ⟨h1, h2, hcomp, htx, hraw, hseqf, hpb, cb, hcalc, hcrc16, hbits⟩ :=
    buildFrameBitsV3_ok hf
  have hbytes : ∀ b ∈ (pickPayload deflate (utf8Encode T)).payload, b < 256 :=
    pickPayload_bytes_lt (utf8Encode_lt hscal) hdef
  have hdecEq : (if (pickPayload deflate (utf8Encode T)).compressed then
      inflate (pickPayload deflate (utf8Encode T)).payload
    else some (pickPayload deflate (utf8Encode T)).payload) = some (utf8Encode T) := by
    by_cases hc : (pickPayload deflate (utf8Encode T)).compressed
    · rw [if_pos hc, pickPayload_payload, if_pos hc, hinf]
    · rw [if_neg hc, pickPayload_payload, if_neg hc]
  have hlen1 : 1 ≤ (pickPayload deflate (utf8Encode T)).payload.length := by
    rw [htx] at hne
    exact hne
  have hmain := feed_full_v3_frame inflate initialStats fb
    (pickPayload deflate (utf8Encode T)).payload
    (pickPayload deflate (utf8Encode T)).compressed (S % 256)
    (pickPayload deflate (utf8Encode T)).payload.length cb (utf8Encode T)
    (Nat.mod_lt _ (by norm_num)) rfl hlen1 h2 hbytes hcalc hdecEq
  rw [RxBitDecoder.init, hbits, hmain, utf8DecodeReplace_encode hscal, ← hcomp, ← htx,
    Nat.mod_eq_of_lt (by omega)]
  rfl

set_option maxRecDepth 4000 in
/-- C1 witness: concrete round trip for the text "hi" with seq 7. -/
theorem c1_v3_roundtrip_witness :
    feedBits someInflate (RxBitDecoder.init false)
        (PREAMBLE_BITS_V2 ++ SYNC_BITS_V3 ++ buildHeaderV3Bits false 7 2 ++
          bytesToBitStream [104, 105] ++ u16ToBits 44168) =
      (⟨.search_preamble [], ⟨1, 0, 0, 0, 0, 0, none⟩, false⟩,
        [.status, .status, .status, .status,
          .frame ⟨[104, 105], .v3, false, 2, some 7⟩]) :=
  c1_v3_roundtrip idDeflate someInflate [104, 105] 7
    ⟨PREAMBLE_BITS_V2 ++ SYNC_BITS_V3 ++ buildHeaderV3Bits false 7 2 ++
        bytesToBitStream [104, 105] ++ u16ToBits 44168,
      bytesToBitStream [104, 105], false, 2, 2, 7, 44168⟩
    false (by decide) (by decide) (fun bs => rfl) (by decide) rfl (by decide)

end Fask

/-! Claims C5 and C10: compression gating and builder safety. -/

namespace Fask

theorem pickPayload_length_le (deflate : List Nat → List Nat) (raw : List Nat) :
    (pickPayload deflate raw).payload.length ≤ raw.length := by
  rw [pickPayload_payload, pickPayload_compressed]
  split_ifs with h
  · rw [decide_eq_true_eq] at h
    have hmin : COMPRESS_MIN_GAIN_BYTES = 2 := rfl
    omega
  · exact Nat.le_refl _

/-- C5: both encoders pick the compressed candidate iff rawLength ≥ 24 and
compressedLength + 2 < rawLength, otherwise transmit the raw bytes, and the
compressed flag recovered by the decoder from the V3 header
(parseHeaderV3) and from the V2 length/flag word (parseLenFlagU16) equals
exactly that decision. -/
theorem c5_compression_gating
    (deflate : List Nat → List Nat) (raw : List Nat) (seq : Nat)
    (hseq : seq < 256) (hlen : (pickPayload deflate raw).payload.length ≤ 0x7fff) :
    ((pickPayload deflate raw).compressed = true ↔
      (COMPRESS_MIN_RAW_BYTES ≤ raw.length ∧
        (deflate raw).length + COMPRESS_MIN_GAIN_BYTES < raw.length)) ∧
    (pickPayload deflate raw).payload =
      (if (pickPayload deflate raw).compressed then deflate raw else raw) ∧
    (parseHeaderV3 (buildHeaderV3Bits (pickPayload deflate raw).compressed seq
        (pickPayload deflate raw).payload.length)).map V3Header.compressed =
      some (pickPayload deflate raw).compressed ∧
    (parseLenFlagU16 (u16ToBits ((if (pickPayload deflate raw).compressed then
        LEN_FLAG_MASK else 0) ||| (pickPayload deflate raw).payload.length))).1 =
      (pickPayload deflate raw).compressed := by
  refine ⟨?_, pickPayload_payload deflate raw, ?_, ?_⟩
  · rw [pickPayload_compressed]
    exact ⟨of_decide_eq_true, decide_eq_true⟩
  · rw [parseHeaderV3_build _ _ _ hseq hlen, Option.map_some']
  · rw [parseLenFlagU16_build _ _ hlen]

/-- C5 witness: a concrete 3-byte payload with the identity deflate is not
compressed, and both header decodings agree with that choice. -/
theorem c5_compression_gating_witness :
    (((pickPayload idDeflate [97, 98, 99]).compressed = true ↔
      (COMPRESS_MIN_RAW_BYTES ≤ ([97, 98, 99] : List Nat).length ∧
        (idDeflate [97, 98, 99]).length + COMPRESS_MIN_GAIN_BYTES <
          ([97, 98, 99] : List Nat).length)) ∧
    (pickPayload idDeflate [97, 98, 99]).payload =
      (if (pickPayload idDeflate [97, 98, 99]).compressed then idDeflate [97, 98, 99]
        else [97, 98, 99]) ∧
    (parseHeaderV3 (buildHeaderV3Bits (pickPayload idDeflate [97, 98, 99]).compressed 0
        (pickPayload idDeflate [97, 98, 99]).payload.length)).map V3Header.compressed =
      some (pickPayload idDeflate [97, 98, 99]).compressed ∧
    (parseLenFlagU16 (u16ToBits ((if (pickPayload idDeflate [97, 98, 99]).compressed then
        LEN_FLAG_MASK else 0) |||
        (pickPayload idDeflate [97, 98, 99]).payload.length))).1 =
      (pickPayload idDeflate [97, 98, 99]).compressed) :=
  c5_compression_gating idDeflate [97, 98, 99] 0 (by decide) (by decide)

/-- C10: under the precondition that the raw UTF-8 encoding is at most 32767
bytes, neither builder ever reaches the defensive encodedPayloadTooLarge
branch: the picked payload is never longer than the raw bytes. -/
theorem c10_no_encoded_too_large
    (deflate : List Nat → List Nat) (T : List Nat) (S : Nat)
    (hraw : (utf8Encode T).length ≤ 0x7fff) :
    buildFrameBitsV2 deflate T ≠ .error .encodedPayloadTooLarge ∧
    buildFrameBitsV3 deflate T S ≠ .error .encodedPayloadTooLarge := by
  have hlv : LEN_VALUE_MASK = 0x7fff := rfl
  have h1 : ¬ LEN_VALUE_MASK < (utf8Encode T).length := by omega
  have h2 : ¬ LEN_VALUE_MASK < (pickPayload deflate (utf8Encode T)).payload.length := by
    have := pickPayload_length_le deflate (utf8Encode T)
    omega
  constructor
  · simp only [buildFrameBitsV2]
    rw [if_neg h1, if_neg h2]
    simp
  · simp only [buildFrameBitsV3]
    rw [if_neg h1, if_neg h2]
    cases hcalc : calculateV3Crc16Bits
        (buildHeaderV3Bits (pickPayload deflate (utf8Encode T)).compressed (S % 256)
          (pickPayload deflate (utf8Encode T)).payload.length)
        (bytesToBitStream (pickPayload deflate (utf8Encode T)).payload) with
    | none => simp
    | some cb => simp

/-- C10 witness: the identity deflate on the two-character text "hi". -/
theorem c10_no_encoded_too_large_witness :
    buildFrameBitsV2 idDeflate [104, 105] ≠ .error .encodedPayloadTooLarge ∧
    buildFrameBitsV3 idDeflate [104, 105] 0 ≠ .error .encodedPayloadTooLarge :=
  c10_no_encoded_too_large idDeflate [104, 105] 0 (by decide)

end Fask

/-! Claims C6 and C7: header length bound and idempotent resync. -/

namespace Fask

theorem bumpStats_eq (st : DecoderStats) (code : DecoderErrorCode) :
    bumpStats st code =
      ⟨st.okFrames,
        st.crcFail + (if code = .crc_fail then 1 else 0),
        st.lenInvalid + (if code = .len_invalid then 1 else 0),
        st.decodeFail + (if code = .decode_fail then 1 else 0),
        st.syncLost + (if code = .sync_lost then 1 else 0),
        st.resyncCount + 1, some code⟩ := by
  cases code <;> rfl

theorem parseHeaderV3_long_len {bits : Bits} (h32 : bits.length = 32)
    (hlen : 0x7fff < bitsToNat (bits.drop 16)) : parseHeaderV3 bits = none := by
  have hne : ¬ (bits.length ≠ 32) := by rw [h32]; simp
  rw [parseHeaderV3, if_neg hne]
  dsimp only
  by_cases hv : bits.take 2 ≠ V3_VERSION_BITS
  · rw [if_pos hv]
  rw [if_neg hv]
  by_cases hf : bitsToNat ((bits.drop 2).take 6) &&& V3_RESERVED_FLAGS_MASK ≠ 0
  · rw [if_pos hf]
  rw [if_neg hf]
  have htk : (bits.drop 16).take 16 = bits.drop 16 := by
    apply List.take_of_length_le
    simp [h32]
  have hcond : LEN_VALUE_MASK < bitsToNat ((bits.drop 16).take 16) := by
    rw [htk]
    have : LEN_VALUE_MASK = 0x7fff := rfl
    omega
  rw [if_pos hcond]

/-- C6: a completed 32-bit V3 header whose 16-bit length field (after
inversion correction) declares more than 32767 bytes always yields a
len_invalid error event: lenInvalid and resyncCount are each incremented by
one, lastError is set, every other counter is untouched, and the decoder
returns to search_preamble with an empty window; the consumeBit step is a
total function (no exception) and never enters payload reading. -/
theorem c6_header_len_invalid
    (inflate : List Nat → Option (List Nat)) (st : DecoderStats) (fb inv : Bool)
    (pre : Bits) (b : Bool) (hlen : pre.length = 31)
    (hdecl : 0x7fff < bitsToNat ((pre ++ [if inv then flipBit b else b]).drop 16)) :
    RxBitDecoder.consumeBit inflate ⟨.read_v3_header pre inv, st, fb⟩ b =
      (⟨.search_preamble [], ⟨st.okFrames, st.crcFail, st.lenInvalid + 1, st.decodeFail,
          st.syncLost, st.resyncCount + 1, some .len_invalid⟩, fb⟩,
        some (.error .len_invalid)) := by
  have hbits : (pre ++ [if inv then flipBit b else b]).length = 32 := by simp [hlen]
  have hnot32 : ¬ (pre ++ [if inv then flipBit b else b]).length < 32 := by omega
  have hnone := parseHeaderV3_long_len hbits hdecl
  simp only [RxBitDecoder.consumeBit]
  rw [if_neg hnot32, hnone, resync_eq]
  dsimp only
  rw [bumpStats_eq]
  rfl

/-- C6 witness: a header declaring length 0x8001 on an uninverted stream. -/
theorem c6_header_len_invalid_witness :
    RxBitDecoder.consumeBit someInflate
        ⟨.read_v3_header ((V3_VERSION_BITS ++ natToBits 6 0 ++ natToBits 8 5 ++
          natToBits 16 0x8001).take 31) false, initialStats, false⟩ true =
      (⟨.search_preamble [], ⟨0, 0, 1, 0, 0, 1, some .len_invalid⟩, false⟩,
        some (.error .len_invalid)) :=
  c6_header_len_invalid someInflate initialStats false false _ true (by decide) (by decide)

/-- C7: whenever consumeBit emits an error event (any resync), the resulting
protocol state equals a freshly constructed decoder's initial state, the
fallback flag is preserved, and the stats change by exactly: the matching
failure counter +1, resyncCount +1, lastError set to the code. -/
theorem c7_resync_fresh
    (inflate : List Nat → Option (List Nat)) (d d' : RxBitDecoder)
    (b : Bool) (code : DecoderErrorCode)
    (h : d.consumeBit inflate b = (d', some (.error code))) :
    d'.state = (RxBitDecoder.init d.allowV2Fallback).state ∧
    d'.allowV2Fallback = d.allowV2Fallback ∧
    d'.stats = ⟨d.stats.okFrames,
      d.stats.crcFail + (if code = .crc_fail then 1 else 0),
      d.stats.lenInvalid + (if code = .len_invalid then 1 else 0),
      d.stats.decodeFail + (if code = .decode_fail then 1 else 0),
      d.stats.syncLost + (if code = .sync_lost then 1 else 0),
      d.stats.resyncCount + 1, some code⟩ := by
  obtain ⟨st, stats, fb⟩ := d
  cases st with
  | search_preamble window =>
      simp only [RxBitDecoder.consumeBit] at h
      split_ifs at h <;> simp at h
  | search_sync window invert =>
      simp only [RxBitDecoder.consumeBit] at h
      split_ifs at h <;> simp at h
  | read_v3_header bits invert =>
      simp only [RxBitDecoder.consumeBit] at h
      by_cases h32 : (bits ++ [if invert then flipBit b else b]).length < 32
      · rw [if_pos h32] at h
        simp at h
      rw [if_neg h32] at h
      cases hp : parseHeaderV3 (bits ++ [if invert then flipBit b else b]) with
      | none =>
          rw [hp, resync_eq] at h
          dsimp only at h
          rw [bumpStats_eq] at h
          simp only [Prod.mk.injEq, Option.some.injEq, DecoderEvent.error.injEq] at h
          obtain ⟨h1, h2⟩ := h
          subst h2
          rw [← h1]
          exact ⟨rfl, rfl, rfl⟩
      | some parsed =>
          rw [hp] at h
          dsimp only at h
          by_cases hmax : MAX_PAYLOAD_BYTES < parsed.lenBytes
          · rw [if_pos hmax, resync_eq] at h
            dsimp only at h
            rw [bumpStats_eq] at h
            simp only [Prod.mk.injEq, Option.some.injEq, DecoderEvent.error.injEq] at h
            obtain ⟨h1, h2⟩ := h
            subst h2
            rw [← h1]
            exact ⟨rfl, rfl, rfl⟩
          · rw [if_neg hmax] at h
            simp at h
  | read_v3_payload headerBits lenBytes compressed seq bits invert =>
      simp only [RxBitDecoder.consumeBit] at h
      split_ifs at h <;> simp at h
  | read_v3_crc headerBits payloadBits compressed seq bits invert =>
      simp only [RxBitDecoder.consumeBit] at h
      by_cases h16 : (bits ++ [if invert then flipBit b else b]).length < 16
      · rw [if_pos h16] at h
        simp at h
      rw [if_neg h16] at h
      by_cases hver : verifyCrc16 headerBits payloadBits
          ((bits ++ [if invert then flipBit b else b]).take 16) = true
      · rw [if_pos hver] at h
        cases hdp : decodePayload inflate payloadBits compressed with
        | none =>
            rw [hdp, resync_eq] at h
            dsimp only at h
            rw [bumpStats_eq] at h
            simp only [Prod.mk.injEq, Option.some.injEq, DecoderEvent.error.injEq] at h
            obtain ⟨h1, h2⟩ := h
            subst h2
            rw [← h1]
            exact ⟨rfl, rfl, rfl⟩
        | some text =>
            rw [hdp] at h
            simp at h
      · rw [if_neg hver, resync_eq] at h
        dsimp only at h
        rw [bumpStats_eq] at h
        simp only [Prod.mk.injEq, Option.some.injEq, DecoderEvent.error.injEq] at h
        obtain ⟨h1, h2⟩ := h
        subst h2
        rw [← h1]
        exact ⟨rfl, rfl, rfl⟩
  | read_v2_len bits invert =>
      simp only [RxBitDecoder.consumeBit] at h
      by_cases h16 : (bits ++ [if invert then flipBit b else b]).length < 16
      · rw [if_pos h16] at h
        simp at h
      rw [if_neg h16] at h
      by_cases hmax : MAX_PAYLOAD_BYTES <
          (parseLenFlagU16 (bits ++ [if invert then flipBit b else b])).2
      · rw [if_pos hmax, resync_eq] at h
        dsimp only at h
        rw [bumpStats_eq] at h
        simp only [Prod.mk.injEq, Option.some.injEq, DecoderEvent.error.injEq] at h
        obtain ⟨h1, h2⟩ := h
        subst h2
        rw [← h1]
        exact ⟨rfl, rfl, rfl⟩
      · rw [if_neg hmax] at h
        simp at h
  | read_v2_payload lenBytes compressed bits invert =>
      simp only [RxBitDecoder.consumeBit] at h
      by_cases hn : (bits ++ [if invert then flipBit b else b]).length < lenBytes * 8
      · rw [if_pos hn] at h
        simp at h
      rw [if_neg hn] at h
      cases hdp : decodePayload inflate
          ((bits ++ [if invert then flipBit b else b]).take (lenBytes * 8)) compressed with
      | none =>
          rw [hdp, resync_eq] at h
          dsimp only at h
          rw [bumpStats_eq] at h
          simp only [Prod.mk.injEq, Option.some.injEq, DecoderEvent.error.injEq] at h
          obtain ⟨h1, h2⟩ := h
          subst h2
          rw [← h1]
          exact ⟨rfl, rfl, rfl⟩
      | some text =>
          rw [hdp] at h
          simp at h

/-- C7 witness: a CRC mismatch resync from a concrete read_v3_crc state. -/
theorem c7_resync_fresh_witness :
    (⟨.search_preamble [], ⟨0, 1, 0, 0, 0, 1, some .crc_fail⟩, false⟩ :
        RxBitDecoder).state = (RxBitDecoder.init false).state ∧
    (⟨.search_preamble [], ⟨0, 1, 0, 0, 0, 1, some .crc_fail⟩, false⟩ :
        RxBitDecoder).allowV2Fallback = false ∧
    (⟨.search_preamble [], ⟨0, 1, 0, 0, 0, 1, some .crc_fail⟩, false⟩ :
        RxBitDecoder).stats = ⟨0,
      0 + (if DecoderErrorCode.crc_fail = .crc_fail then 1 else 0),
      0 + (if DecoderErrorCode.crc_fail = .len_invalid then 1 else 0),
      0 + (if DecoderErrorCode.crc_fail = .decode_fail then 1 else 0),
      0 + (if DecoderErrorCode.crc_fail = .sync_lost then 1 else 0),
      0 + 1, some .crc_fail⟩ :=
  c7_resync_fresh someInflate
    ⟨.read_v3_crc [] [] false 0 (List.replicate 15 false) false, initialStats, false⟩
    ⟨.search_preamble [], ⟨0, 1, 0, 0, 0, 1, some .crc_fail⟩, false⟩
    false .crc_fail rfl

end Fask

/-! Claim C4: sync window decision. -/

namespace Fask

theorem optLE_some_none (n : Nat) : optLE (some n) none = true := rfl

theorem optLE_some_some (n m : Nat) : optLE (some n) (some m) = decide (n ≤ m) := rfl

theorem optLE_none_some (m : Nat) : optLE none (some m) = false := rfl

/-- C4 (amended: the V2 tolerance in the code is SYNC_MAX_ERRORS = 3, not 2
as the spec states; both patterns share the single constant): with a full
16-bit window w16 (after inversion correction), the decoder locks V3 iff
dist(w16, SYNC_V3) ≤ 3 and, when fallback is enabled, that distance is not
worse than dist(w16, SYNC_V2); otherwise it locks V2 iff fallback is enabled
and dist(w16, SYNC_V2) ≤ 3; otherwise the window slides. With fallback
disabled the V2 branch is unreachable. -/
theorem c4_sync_decision
    (inflate : List Nat → Option (List Nat)) (st : DecoderStats) (fb inv : Bool)
    (w w16 : Bits) (b : Bool) (hw : w.length = 15)
    (hw16 : w16 = w ++ [if inv then flipBit b else b]) :
    RxBitDecoder.consumeBit inflate ⟨.search_sync w inv, st, fb⟩ b =
      (if countNeAux w16 SYNC_BITS_V3 ≤ SYNC_MAX_ERRORS ∧
          (fb = true → countNeAux w16 SYNC_BITS_V3 ≤ countNeAux w16 SYNC_BITS_V2) then
        (⟨.read_v3_header [] inv, st, fb⟩, some .status)
      else if fb = true ∧ countNeAux w16 SYNC_BITS_V2 ≤ SYNC_MAX_ERRORS then
        (⟨.read_v2_len [] inv, st, fb⟩, some .status)
      else (⟨.search_sync w16 inv, st, fb⟩, none)) := by
  subst hw16
  have l3 : SYNC_BITS_V3.length = 16 := rfl
  have l2 : SYNC_BITS_V2.length = 16 := rfl
  have lw : (w ++ [if inv then flipBit b else b]).length = 16 := by simp [hw]
  have hpw : pushWindow w SYNC_BITS_V3.length (if inv then flipBit b else b) =
      w ++ [if inv then flipBit b else b] := by
    rw [pushWindow]
    simp [lw, l3]
  have hham3 : hammingDistance (w ++ [if inv then flipBit b else b]) SYNC_BITS_V3 =
      some (countNeAux (w ++ [if inv then flipBit b else b]) SYNC_BITS_V3) := by
    rw [hammingDistance]
    rw [if_pos (by rw [lw, l3])]
  have hham2 : hammingDistance (w ++ [if inv then flipBit b else b]) SYNC_BITS_V2 =
      some (countNeAux (w ++ [if inv then flipBit b else b]) SYNC_BITS_V2) := by
    rw [hammingDistance]
    rw [if_pos (by rw [lw, l2])]
  simp only [RxBitDecoder.consumeBit]
  dsimp only
  rw [hpw]
  rw [if_pos (show (w ++ [if inv then flipBit b else b]).length = SYNC_BITS_V3.length by
    rw [lw, l3])]
  cases fb with
  | false =>
      rw [show (if ((false : Bool) = true) then
          hammingDistance (w ++ [if inv then flipBit b else b]) SYNC_BITS_V2
        else (none : Option Nat)) = none from rfl]
      rw [hham3]
      simp only [optLE_some_none, optLE_some_some, optLE_none_some, Bool.and_true,
        decide_eq_true_eq, Bool.false_eq_true, false_and, false_implies, and_true]
  | true =>
      rw [show (if ((true : Bool) = true) then
          hammingDistance (w ++ [if inv then flipBit b else b]) SYNC_BITS_V2
        else (none : Option Nat)) =
          hammingDistance (w ++ [if inv then flipBit b else b]) SYNC_BITS_V2 from rfl]
      rw [hham3, hham2]
      simp only [optLE_some_some, Bool.and_eq_true, decide_eq_true_eq,
        eq_self_iff_true, true_implies, true_and]

/-- C4 counterexample to the original tolerance: the completed window
w15 ++ [0] is at Hamming distance 3 from the V2 sync pattern (and 9 from V3),
yet with fallback enabled the decoder locks V2 — the spec's claimed V2
tolerance of 2 is wrong, the code accepts up to SYNC_MAX_ERRORS = 3. -/
theorem c4_v2_tolerance_ce :
    countNeAux (w15 ++ [false]) SYNC_BITS_V2 = 3 ∧
    countNeAux (w15 ++ [false]) SYNC_BITS_V3 = 9 ∧
    (RxBitDecoder.consumeBit someInflate
      ⟨.search_sync w15 false, initialStats, true⟩ false).1.state =
        .read_v2_len [] false :=
  ⟨rfl, rfl, rfl⟩

/-- C4 witness: a window at Hamming distance 3 from the V2 sync pattern and 9
from the V3 pattern, with fallback enabled, locks V2 — beyond the spec's
claimed tolerance of 2. -/
theorem c4_sync_decision_witness :
    RxBitDecoder.consumeBit someInflate ⟨.search_sync w15 false, initialStats, true⟩ false =
      (if countNeAux (w15 ++ [false]) SYNC_BITS_V3 ≤ SYNC_MAX_ERRORS ∧
          (true = true → countNeAux (w15 ++ [false]) SYNC_BITS_V3 ≤
            countNeAux (w15 ++ [false]) SYNC_BITS_V2) then
        (⟨.read_v3_header [] false, initialStats, true⟩, some .status)
      else if true = true ∧ countNeAux (w15 ++ [false]) SYNC_BITS_V2 ≤ SYNC_MAX_ERRORS then
        (⟨.read_v2_len [] false, initialStats, true⟩, some .status)
      else (⟨.search_sync (w15 ++ [false]) false, initialStats, true⟩, none)) :=
  c4_sync_decision someInflate initialStats true false w15 (w15 ++ [false]) false
    (by decide) rfl

end Fask

/-! Claim C8: decode failure handling on frame completion. -/

namespace Fask

theorem decodePayload_eq (inflate : List Nat → Option (List Nat)) (bits : Bits)
    (c : Bool) :
    decodePayload inflate bits c =
      (bitStreamToBytes bits).bind (fun payloadBytes =>
        (if c then inflate payloadBytes else some payloadBytes).bind
          (fun decodedBytes => some (utf8DecodeReplace decodedBytes))) := by
  cases c <;> rfl

/-- C8 (amended: a completed frame fails to decode exactly when the
compressed flag is set and inflate rejects the payload bytes; bytes that are
not valid UTF-8 are NOT a failure — TextDecoder is non-fatal, so they decode
with U+FFFD replacement and still produce a frame event): on the completing
bit of a V2 payload, and on the completing CRC bit of a V3 frame whose CRC
verifies, the decoder emits a frame event with the replacement UTF-8 decoding
when decodePayload succeeds, and otherwise emits decode_fail, incrementing
decodeFail and resyncCount and returning to search_preamble; and
decodePayload itself fails exactly when the compressed flag is set and
inflate fails, the UTF-8 stage being total. Either way consumeBit returns
normally: no exception reaches the caller. -/
theorem c8_decode_error_recovery
    (inflate : List Nat → Option (List Nat)) (st : DecoderStats) (fb inv : Bool)
    (lenBytes : Nat) (c : Bool) (pre : Bits) (b : Bool)
    (hB pB : Bits) (c3 : Bool) (seq : Nat) (acc : Bits) (b3 : Bool)
    (hlen : pre.length + 1 = lenBytes * 8)
    (hacc : acc.length = 15)
    (hver : verifyCrc16 hB pB (acc ++ [if inv then flipBit b3 else b3]) = true) :
    (RxBitDecoder.consumeBit inflate ⟨.read_v2_payload lenBytes c pre inv, st, fb⟩ b =
      match decodePayload inflate (pre ++ [if inv then flipBit b else b]) c with
      | some text =>
          (⟨.search_preamble [], { st with okFrames := st.okFrames + 1 }, fb⟩,
            some (.frame ⟨text, .v2, c, lenBytes, none⟩))
      | none =>
          (⟨.search_preamble [], ⟨st.okFrames, st.crcFail, st.lenInvalid,
              st.decodeFail + 1, st.syncLost, st.resyncCount + 1, some .decode_fail⟩, fb⟩,
            some (.error .decode_fail))) ∧
    (RxBitDecoder.consumeBit inflate ⟨.read_v3_crc hB pB c3 seq acc inv, st, fb⟩ b3 =
      match decodePayload inflate pB c3 with
      | some text =>
          (⟨.search_preamble [], { st with okFrames := st.okFrames + 1 }, fb⟩,
            some (.frame ⟨text, .v3, c3, pB.length / 8, some seq⟩))
      | none =>
          (⟨.search_preamble [], ⟨st.okFrames, st.crcFail, st.lenInvalid,
              st.decodeFail + 1, st.syncLost, st.resyncCount + 1, some .decode_fail⟩, fb⟩,
            some (.error .decode_fail))) ∧
    (∀ (bits : Bits) (cc : Bool) (bytes : List Nat), bitStreamToBytes bits = some bytes →
      decodePayload inflate bits cc =
        (if cc then inflate bytes else some bytes).map utf8DecodeReplace) := by
  refine ⟨?_, ?_, ?_⟩
  · have hnl : ¬ (pre ++ [if inv then flipBit b else b]).length < lenBytes * 8 := by
      simp only [List.length_append, List.length_cons, List.length_nil]
      omega
    have htake : (pre ++ [if inv then flipBit b else b]).take (lenBytes * 8) =
        pre ++ [if inv then flipBit b else b] := by
      apply List.take_of_length_le
      simp only [List.length_append, List.length_cons, List.length_nil]
      omega
    simp only [RxBitDecoder.consumeBit]
    rw [if_neg hnl, htake]
    cases hdp : decodePayload inflate (pre ++ [if inv then flipBit b else b]) c with
    | none =>
        rw [resync_eq]
        dsimp only
        rw [bumpStats_eq]
        rfl
    | some text => rfl
  · have hlen16 : (acc ++ [if inv then flipBit b3 else b3]).length = 16 := by
      simp [hacc]
    simp only [RxBitDecoder.consumeBit]
    rw [if_neg (by rw [hlen16]; omega), List.take_of_length_le (le_of_eq hlen16),
      if_pos hver]
    cases hdp : decodePayload inflate pB c3 with
    | none =>
        rw [resync_eq]
        dsimp only
        rw [bumpStats_eq]
        rfl
    | some text => rfl
  · intro bits cc bytes hbb
    rw [decodePayload_eq, hbb, Option.some_bind]
    cases cc with
    | false => rfl
    | true =>
        cases hinf : inflate bytes with
        | none => rfl
        | some decBytes => rfl

/-- C8 counterexample to the original claim: a complete V2 frame whose single
payload byte 0xFF is not valid UTF-8 does NOT yield decode_fail — it yields a
frame event whose text is the single replacement character U+FFFD, with
okFrames 1 and decodeFail 0. -/
theorem c8_invalid_utf8_ce :
    feedBits someInflate (RxBitDecoder.init true) c8bits =
      (⟨.search_preamble [], ⟨1, 0, 0, 0, 0, 0, none⟩, true⟩,
        [.status, .status, .status, .frame ⟨[0xFFFD], .v2, false, 1, none⟩]) := rfl

set_option maxRecDepth 4000 in
/-- C8 witness: completing a compressed one-byte V2 payload under an inflate
that rejects every stream yields decode_fail; completing (with a passing CRC)
an uncompressed one-byte V3 frame whose payload byte 0xFF is invalid UTF-8
still yields a frame whose text is the replacement character U+FFFD. -/
theorem c8_decode_error_recovery_witness :
    (RxBitDecoder.consumeBit noneInflate
        ⟨.read_v2_payload 1 true ((natToBits 8 0xAB).take 7) false,
          initialStats, false⟩ true).2 = some (.error .decode_fail) ∧
    (RxBitDecoder.consumeBit someInflate
        ⟨.read_v3_crc (buildHeaderV3Bits false 0 1) (natToBits 8 0xFF) false 0
          ((u16ToBits 7709).take 15) false, initialStats, false⟩ true).2 =
      some (.frame ⟨[0xFFFD], .v3, false, 1, some 0⟩) := by
  constructor
  · rw [(c8_decode_error_recovery noneInflate initialStats false false 1 true
      ((natToBits 8 0xAB).take 7) true (buildHeaderV3Bits false 0 1) (natToBits 8 0xFF)
      true 0 ((u16ToBits 7709).take 15) true (by decide) (by decide) (by decide)).1]
    rfl
  · rw [(c8_decode_error_recovery someInflate initialStats false false 1 false
      ((natToBits 8 0xAB).take 7) true (buildHeaderV3Bits false 0 1) (natToBits 8 0xFF)
      false 0 ((u16ToBits 7709).take 15) true (by decide) (by decide) (by decide)).2.1]
    rfl

end Fask

/-! Claim C3: per-symbol bit decision. -/

namespace Fask

/-- C3 (amended: the code computes a single Goertzel evaluation over the full
symbol window, not the spec's triple-window strategy): the receive loop's
per-symbol decision reports p0 and p1 as the full-window Goertzel powers at
f0 and f1, emits bit 1 iff p1 exceeds p0, and reports
SNR = max(p0,p1)/(min(p0,p1)+eps); and it disagrees with the spec's
triple-window majority strategy on a concrete window. -/
theorem rxCE_bit : (rxSymbolDecision tpCE samplesCE).bit = true := by
  norm_num [rxSymbolDecision, goertzelPower, tpCE, samplesCE]

theorem twCE_bit : (tripleWindowDecision tpCE samplesCE).bit = false := by
  norm_num [tripleWindowDecision, goertzelPower, tpCE, samplesCE]

theorem c3_single_window_decision (tp : ToneParams) (samples : List ℚ) :
    ((rxSymbolDecision tp samples).p0 = goertzelPower tp.cos0 tp.sin0 samples ∧
      (rxSymbolDecision tp samples).p1 = goertzelPower tp.cos1 tp.sin1 samples ∧
      ((rxSymbolDecision tp samples).bit = true ↔
        (rxSymbolDecision tp samples).p0 < (rxSymbolDecision tp samples).p1) ∧
      (rxSymbolDecision tp samples).snr =
        max (rxSymbolDecision tp samples).p0 (rxSymbolDecision tp samples).p1 /
          (min (rxSymbolDecision tp samples).p0 (rxSymbolDecision tp samples).p1 + EPS)) ∧
    rxSymbolDecision tpCE samplesCE ≠ tripleWindowDecision tpCE samplesCE := by
  refine ⟨⟨rfl, rfl, ⟨of_decide_eq_true, decide_eq_true⟩, rfl⟩, fun h => ?_⟩
  have hb := congrArg SymbolDecision.bit h
  rw [rxCE_bit, twCE_bit] at hb
  exact Bool.noConfusion hb

/-- C3 counterexample: on the window samplesCE with tones tpCE the code's
full-window rule answers bit 1 while the spec's triple-window majority
answers bit 0. -/
theorem c3_triple_window_ce :
    (rxSymbolDecision tpCE samplesCE).bit = true ∧
    (tripleWindowDecision tpCE samplesCE).bit = false := ⟨rxCE_bit, twCE_bit⟩

end Fask

/-! Claim C2: single-bit CRC sensitivity. Machinery: a bit flip inside the
payload bit stream is a single-byte xor at the byte level, which always
changes the CRC. -/

namespace Fask

theorem getD_append_left {α : Type} (l₁ l₂ : List α) (n : Nat) (d : α)
    (h : n < l₁.length) : (l₁ ++ l₂).getD n d = l₁.getD n d := by
  simp [List.getD, List.getElem?_append, h]

theorem getD_append_right {α : Type} (l₁ l₂ : List α) (n : Nat) (d : α)
    (h : l₁.length ≤ n) : (l₁ ++ l₂).getD n d = l₂.getD (n - l₁.length) d := by
  simp [List.getD, List.getElem?_append, Nat.not_lt.mpr h]

theorem testBit_xor_two_pow (B t m : Nat) :
    (B ^^^ 2 ^ t).testBit m = ((B.testBit m).xor (decide (t = m))) := by
  rw [Nat.testBit_xor, Nat.testBit_two_pow]

theorem natToBits8_flipAt (B : Nat) (j : Nat) (hj : j < 8) :
    flipAt (natToBits 8 B) j = natToBits 8 (B ^^^ 2 ^ (7 - j)) := by
  interval_cases j <;>
  · rw [natToBits_eight, natToBits_eight, flipAt]
    simp only [testBit_xor_two_pow]
    simp [List.getD]

theorem flipAt_append_left (a b : Bits) (i : Nat) (h : i < a.length) :
    flipAt (a ++ b) i = flipAt a i ++ b := by
  rw [flipAt, flipAt]
  rw [List.take_append_of_le_length (by omega),
    getD_append_left _ _ _ _ h,
    List.drop_append_of_le_length (by omega)]
  simp [List.append_assoc]

theorem flipAt_bytesToBitStream (bytes : List Nat) (i : Nat)
    (hi : i < 8 * bytes.length) :
    flipAt (bytesToBitStream bytes) i =
      bytesToBitStream (bytes.take (i / 8) ++
        [bytes.getD (i / 8) 0 ^^^ 2 ^ (7 - i % 8)] ++ bytes.drop (i / 8 + 1)) := by
  induction bytes generalizing i with
  | nil => simp at hi
  | cons B rest ih =>
      have hcons : bytesToBitStream (B :: rest) =
          natToBits 8 B ++ bytesToBitStream rest := rfl
      have hlen8 : (natToBits 8 B).length = 8 := length_natToBits 8 B
      rw [hcons]
      by_cases hsmall : i < 8
      · have hdiv : i / 8 = 0 := Nat.div_eq_of_lt hsmall
        have hmod : i % 8 = i := Nat.mod_eq_of_lt hsmall
        rw [hdiv, hmod]
        rw [flipAt_append_left _ _ _ (by omega)]
        rw [natToBits8_flipAt B i hsmall]
        rw [List.take_zero, List.getD_cons_zero, List.drop_succ_cons, List.drop_zero]
        rw [List.nil_append]
        rfl
      · have h8 : 8 ≤ i := Nat.not_lt.mp hsmall
        have hdiv : i / 8 = (i - 8) / 8 + 1 := by omega
        have hmod : i % 8 = (i - 8) % 8 := by omega
        rw [hdiv, hmod]
        rw [flipAt]
        rw [show i = (natToBits 8 B).length + (i - 8) by rw [hlen8]; omega,
          List.take_append]
        rw [getD_append_right _ _ _ _ (by omega)]
        rw [hlen8]
        rw [show (8 : Nat) + (i - 8) - 8 = i - 8 by omega]
        rw [show (8 : Nat) + (i - 8) + 1 = (natToBits 8 B).length + (i - 8 + 1) by
          rw [hlen8]; omega, List.drop_append]
        rw [List.take_succ_cons, List.getD_cons_succ, List.drop_succ_cons]
        have hih := ih (i - 8) (by simp at hi; omega)
        rw [flipAt] at hih
        simp only [List.append_assoc, List.cons_append, List.nil_append] at hih ⊢
        rw [show ∀ (x : Nat) (l : List Nat), bytesToBitStream (x :: l) =
          natToBits 8 x ++ bytesToBitStream l from fun _ _ => rfl]
        rw [← hih]

theorem xor_two_pow_ne (B t : Nat) : B ^^^ 2 ^ t ≠ B := by
  intro h
  have h2 : B ^^^ (B ^^^ 2 ^ t) = B ^^^ B := congrArg (B ^^^ ·) h
  rw [← Nat.xor_assoc, Nat.xor_self, Nat.zero_xor] at h2
  have hp : 0 < 2 ^ t := Nat.pow_pos (by omega)
  omega

theorem xor_two_pow_lt (B t : Nat) (hB : B < 256) (ht : t ≤ 7) :
    B ^^^ 2 ^ t < 256 := by
  have h1 : B < 2 ^ 8 := hB
  have h2 : 2 ^ t < 2 ^ 8 := by
    apply Nat.pow_lt_pow_right (by omega)
    omega
  exact Nat.xor_lt_two_pow h1 h2

theorem verifyCrc16_ne {hB pB C cb : Bits}
    (hc : calculateV3Crc16Bits hB pB = some cb)
    (hne : cb ≠ C) (hlen : C.length = 16) : verifyCrc16 hB pB C = false := by
  rw [verifyCrc16, if_neg (by omega), hc]
  exact beq_eq_false_iff_ne.mpr hne

end Fask

namespace Fask

theorem feed_v3_frame_crcfail (inflate : List Nat → Option (List Nat))
    (st : DecoderStats) (fb inv : Bool) (payload : List Nat) (c : Bool)
    (seq len : Nat) (crcBits : Bits)
    (hseq : seq < 256) (hplen : payload.length = len) (hl1 : 1 ≤ len)
    (hl2 : len ≤ 0x7fff) (hclen : crcBits.length = 16)
    (hver : verifyCrc16 (buildHeaderV3Bits c seq len) (bytesToBitStream payload)
      crcBits = false) :
    feedBits inflate ⟨.search_sync [] inv, st, fb⟩
        (applyInv inv (SYNC_BITS_V3 ++ (buildHeaderV3Bits c seq len ++
          (bytesToBitStream payload ++ crcBits)))) =
      (⟨.search_preamble [], bumpStats st .crc_fail, fb⟩,
        [.status, .status, .status, .error .crc_fail]) := by
  rw [applyInv_append, applyInv_append, applyInv_append]
  rw [feedBits_append, feed_sync_v3]
  rw [feedBits_append]
  have hhdr := feed_v3_header inflate st fb inv [] (buildHeaderV3Bits c seq len)
    (by rw [List.nil_append, length_buildHeaderV3Bits])
    (by cases c <;> simp [buildHeaderV3Bits, V3_VERSION_BITS])
  rw [List.nil_append, parseHeaderV3_build c seq len hseq hl2] at hhdr
  dsimp only at hhdr
  rw [hhdr]
  rw [feedBits_append]
  have hpl := feed_v3_payload inflate st fb inv (buildHeaderV3Bits c seq len) len c seq
    [] (bytesToBitStream payload)
    (by rw [List.nil_append, length_bytesToBitStream, hplen]; ring)
    (by intro hcontra
        have hlb := length_bytesToBitStream payload
        rw [hcontra, hplen] at hlb
        simp only [List.length_nil] at hlb
        omega)
  rw [List.nil_append] at hpl
  rw [hpl]
  have hcb := feed_v3_crc inflate st fb inv (buildHeaderV3Bits c seq len)
    (bytesToBitStream payload) c seq [] crcBits
    (by rw [List.nil_append]; exact hclen)
    (by intro hcontra
        rw [hcontra] at hclen
        simp at hclen)
  rw [List.nil_append] at hcb
  rw [hcb, if_neg (by rw [hver]; simp)]
  rfl

theorem feed_full_v3_frame_crcfail (inflate : List Nat → Option (List Nat))
    (st : DecoderStats) (fb : Bool) (payload : List Nat) (c : Bool)
    (seq len : Nat) (crcBits : Bits)
    (hseq : seq < 256) (hplen : payload.length = len) (hl1 : 1 ≤ len)
    (hl2 : len ≤ 0x7fff) (hclen : crcBits.length = 16)
    (hver : verifyCrc16 (buildHeaderV3Bits c seq len) (bytesToBitStream payload)
      crcBits = false) :
    feedBits inflate ⟨.search_preamble [], st, fb⟩
        (PREAMBLE_BITS_V2 ++ SYNC_BITS_V3 ++ buildHeaderV3Bits c seq len ++
          bytesToBitStream payload ++ crcBits) =
      (⟨.search_preamble [], bumpStats st .crc_fail, fb⟩,
        [.status, .status, .status, .status, .error .crc_fail]) := by
  have hassoc : PREAMBLE_BITS_V2 ++ SYNC_BITS_V3 ++ buildHeaderV3Bits c seq len ++
      bytesToBitStream payload ++ crcBits =
      PREAMBLE_BITS_V2 ++ (SYNC_BITS_V3 ++ (buildHeaderV3Bits c seq len ++
        (bytesToBitStream payload ++ crcBits))) := by
    simp [List.append_assoc]
  rw [hassoc, feedBits_append, feed_preamble]
  have hmain := feed_v3_frame_crcfail inflate st fb false payload c seq len crcBits
    hseq hplen hl1 hl2 hclen hver
  rw [applyInv_false] at hmain
  rw [hmain]
  rfl

end Fask

namespace Fask

theorem c2_aux (inflate : List Nat → Option (List Nat)) (fb : Bool)
    (P : List Nat) (c : Bool) (seq : Nat) (cb : Bits) (i : Nat)
    (hseq : seq < 256) (hlen2 : P.length ≤ 0x7fff) (hbytesP : ∀ b ∈ P, b < 256)
    (hcalc : calculateV3Crc16Bits (buildHeaderV3Bits c seq P.length)
      (bytesToBitStream P) = some cb)
    (hi8 : i < 8 * P.length) :
    feedBits inflate ⟨.search_preamble [], initialStats, fb⟩
        (PREAMBLE_BITS_V2 ++ SYNC_BITS_V3 ++ buildHeaderV3Bits c seq P.length ++
          (flipAt (bytesToBitStream P) i ++ cb)) =
      (⟨.search_preamble [], ⟨0, 1, 0, 0, 0, 1, some .crc_fail⟩, fb⟩,
        [.status, .status, .status, .status, .error .crc_fail]) := by
  have hk : i / 8 < P.length := by omega
  have hBmem : P.getD (i / 8) 0 ∈ P := by
    rw [List.getD_eq_getElem P 0 hk]
    exact List.getElem_mem hk
  have hBlt : P.getD (i / 8) 0 < 256 := hbytesP _ hBmem
  have hB'lt : P.getD (i / 8) 0 ^^^ 2 ^ (7 - i % 8) < 256 :=
    xor_two_pow_lt _ _ hBlt (by omega)
  have hP'len : (P.take (i / 8) ++ [P.getD (i / 8) 0 ^^^ 2 ^ (7 - i % 8)] ++
      P.drop (i / 8 + 1)).length = P.length := by
    simp [List.length_take, List.length_drop]
    omega
  have hP'bytes : ∀ b ∈ P.take (i / 8) ++ [P.getD (i / 8) 0 ^^^ 2 ^ (7 - i % 8)] ++
      P.drop (i / 8 + 1), b < 256 := by
    intro b hb
    simp only [List.mem_append, List.mem_singleton] at hb
    rcases hb with (hb | hb) | hb
    · exact hbytesP b (List.mem_of_mem_take hb)
    · rw [hb]
      exact hB'lt
    · exact hbytesP b (List.mem_of_mem_drop hb)
  obtain ⟨hb, hbsome, hblen, hblt⟩ := bitStreamToBytes_total
    (buildHeaderV3Bits c seq P.length) (by rw [length_buildHeaderV3Bits])
  have hHP : bitStreamToBytes (buildHeaderV3Bits c seq P.length ++
      bytesToBitStream P) = some (hb ++ P) := by
    rw [bitStreamToBytes_append _ hbsome, bitStreamToBytes_bytesToBitStream P hbytesP]
    rfl
  have hcbval : cb = u16ToBits (crc16CcittFalse (hb ++ P)) := by
    rw [calculateV3Crc16Bits, hHP] at hcalc
    simp only [Option.map_some', Option.some.injEq] at hcalc
    exact hcalc.symm
  have hHP' : bitStreamToBytes (buildHeaderV3Bits c seq P.length ++
      bytesToBitStream (P.take (i / 8) ++ [P.getD (i / 8) 0 ^^^ 2 ^ (7 - i % 8)] ++
        P.drop (i / 8 + 1))) =
      some (hb ++ (P.take (i / 8) ++ [P.getD (i / 8) 0 ^^^ 2 ^ (7 - i % 8)] ++
        P.drop (i / 8 + 1))) := by
    rw [bitStreamToBytes_append _ hbsome, bitStreamToBytes_bytesToBitStream _ hP'bytes]
    rfl
  have hcalc' : calculateV3Crc16Bits (buildHeaderV3Bits c seq P.length)
      (bytesToBitStream (P.take (i / 8) ++ [P.getD (i / 8) 0 ^^^ 2 ^ (7 - i % 8)] ++
        P.drop (i / 8 + 1))) =
      some (u16ToBits (crc16CcittFalse (hb ++ (P.take (i / 8) ++
        [P.getD (i / 8) 0 ^^^ 2 ^ (7 - i % 8)] ++ P.drop (i / 8 + 1))))) := by
    rw [calculateV3Crc16Bits, hHP']
    rfl
  have hPdecomp : P = P.take (i / 8) ++ P.getD (i / 8) 0 :: P.drop (i / 8 + 1) := by
    conv_lhs => rw [← List.take_append_drop (i / 8) P]
    rw [List.drop_eq_getElem_cons hk, List.getD_eq_getElem P 0 hk]
  have hcrcne : crc16CcittFalse (hb ++ (P.take (i / 8) ++
      [P.getD (i / 8) 0 ^^^ 2 ^ (7 - i % 8)] ++ P.drop (i / 8 + 1))) ≠
      crc16CcittFalse (hb ++ P) := by
    have hA : hb ++ (P.take (i / 8) ++ [P.getD (i / 8) 0 ^^^ 2 ^ (7 - i % 8)] ++
        P.drop (i / 8 + 1)) =
        (hb ++ P.take (i / 8)) ++
          (P.getD (i / 8) 0 ^^^ 2 ^ (7 - i % 8)) :: P.drop (i / 8 + 1) := by
      simp [List.append_assoc]
    have hB : hb ++ P =
        (hb ++ P.take (i / 8)) ++ P.getD (i / 8) 0 :: P.drop (i / 8 + 1) := by
      conv_lhs => rw [hPdecomp]
      simp [List.append_assoc]
    rw [hA, hB]
    exact crc16_single_byte_ne _ _ hB'lt hBlt (xor_two_pow_ne _ _)
  have hcbne : u16ToBits (crc16CcittFalse (hb ++ (P.take (i / 8) ++
      [P.getD (i / 8) 0 ^^^ 2 ^ (7 - i % 8)] ++ P.drop (i / 8 + 1)))) ≠ cb := by
    rw [hcbval]
    intro h
    rw [u16ToBits, u16ToBits] at h
    have hlt1 : crc16CcittFalse (hb ++ (P.take (i / 8) ++
        [P.getD (i / 8) 0 ^^^ 2 ^ (7 - i % 8)] ++ P.drop (i / 8 + 1))) < 2 ^ 16 := by
      have := crc16_lt (hb ++ (P.take (i / 8) ++
        [P.getD (i / 8) 0 ^^^ 2 ^ (7 - i % 8)] ++ P.drop (i / 8 + 1))) (by
        intro x hx
        rcases List.mem_append.mp hx with hx | hx
        · exact hblt x hx
        · exact hP'bytes x hx)
      omega
    have hlt2 : crc16CcittFalse (hb ++ P) < 2 ^ 16 := by
      have := crc16_lt (hb ++ P) (by
        intro x hx
        rcases List.mem_append.mp hx with hx | hx
        · exact hblt x hx
        · exact hbytesP x hx)
      omega
    exact hcrcne (natToBits_inj hlt1 hlt2 h)
  have hcblen : cb.length = 16 := by
    rw [hcbval, u16ToBits, length_natToBits]
  have hver : verifyCrc16 (buildHeaderV3Bits c seq P.length)
      (bytesToBitStream (P.take (i / 8) ++ [P.getD (i / 8) 0 ^^^ 2 ^ (7 - i % 8)] ++
        P.drop (i / 8 + 1))) cb = false :=
    verifyCrc16_ne hcalc' hcbne hcblen
  rw [flipAt_bytesToBitStream P i hi8]
  have hm := feed_full_v3_frame_crcfail inflate initialStats fb
    (P.take (i / 8) ++ [P.getD (i / 8) 0 ^^^ 2 ^ (7 - i % 8)] ++ P.drop (i / 8 + 1))
    c seq P.length cb hseq hP'len (by omega) hlen2 hcblen hver
  rw [show PREAMBLE_BITS_V2 ++ SYNC_BITS_V3 ++ buildHeaderV3Bits c seq P.length ++
      (bytesToBitStream (P.take (i / 8) ++ [P.getD (i / 8) 0 ^^^ 2 ^ (7 - i % 8)] ++
        P.drop (i / 8 + 1)) ++ cb) =
      PREAMBLE_BITS_V2 ++ SYNC_BITS_V3 ++ buildHeaderV3Bits c seq P.length ++
        bytesToBitStream (P.take (i / 8) ++ [P.getD (i / 8) 0 ^^^ 2 ^ (7 - i % 8)] ++
          P.drop (i / 8 + 1)) ++ cb from by simp [List.append_assoc]]
  rw [hm]
  rfl

end Fask

namespace Fask

/-- C2: flipping any single payload bit of a valid V3 frame before feeding it
into a fresh decoder produces exactly the events
[status, status, status, status, error crc_fail]: no frame event, crcFail
and resyncCount end at 1, decodeFail and lenInvalid stay 0. -/
theorem c2_crc_sensitivity
    (deflate : List Nat → List Nat) (inflate : List Nat → Option (List Nat))
    (T : List Nat) (S : Nat) (f : EncodedFrameV3) (fb : Bool) (i : Nat)
    (hscal : ∀ v ∈ T, isScalar v)
    (hdef : ∀ b ∈ deflate (utf8Encode T), b < 256)
    (hf : buildFrameBitsV3 deflate T S = .ok f)
    (hi : i < f.payloadBits.length) :
    feedBits inflate (RxBitDecoder.init fb)
        (f.bits.take 80 ++ flipAt f.payloadBits i ++
          f.bits.drop (80 + f.payloadBits.length)) =
      (⟨.search_preamble [], ⟨0, 1, 0, 0, 0, 1, some .crc_fail⟩, fb⟩,
        [.status, .status, .status, .status, .error .crc_fail]) := by
  obtain ⟨h1, h2, hcomp, htx, hraw, hseqf, hpb, cb, hcalc, hcrc16, hbits⟩ :=
    buildFrameBitsV3_ok hf
  have hbytesP : ∀ b ∈ (pickPayload deflate (utf8Encode T)).payload, b < 256 :=
    pickPayload_bytes_lt (utf8Encode_lt hscal) hdef
  have hPLlen : f.payloadBits.length =
      8 * (pickPayload deflate (utf8Encode T)).payload.length := by
    rw [hpb, length_bytesToBitStream]
  have hi8 : i < 8 * (pickPayload deflate (utf8Encode T)).payload.length := by omega
  have hAlen : (PREAMBLE_BITS_V2 ++ (SYNC_BITS_V3 ++
      buildHeaderV3Bits (pickPayload deflate (utf8Encode T)).compressed (S % 256)
        (pickPayload deflate (utf8Encode T)).payload.length)).length = 80 := by
    rw [List.length_append, List.length_append, length_buildHeaderV3Bits]
    rfl
  have hsplit1 : f.bits = (PREAMBLE_BITS_V2 ++ (SYNC_BITS_V3 ++
      buildHeaderV3Bits (pickPayload deflate (utf8Encode T)).compressed (S % 256)
        (pickPayload deflate (utf8Encode T)).payload.length)) ++
      (bytesToBitStream (pickPayload deflate (utf8Encode T)).payload ++ cb) := by
    rw [hbits]
    simp [List.append_assoc]
  have htake80 : f.bits.take 80 = PREAMBLE_BITS_V2 ++ (SYNC_BITS_V3 ++
      buildHeaderV3Bits (pickPayload deflate (utf8Encode T)).compressed (S % 256)
        (pickPayload deflate (utf8Encode T)).payload.length) := by
    rw [hsplit1, ← hAlen, List.take_left]
  have hsplit2 : f.bits = ((PREAMBLE_BITS_V2 ++ (SYNC_BITS_V3 ++
      buildHeaderV3Bits (pickPayload deflate (utf8Encode T)).compressed (S % 256)
        (pickPayload deflate (utf8Encode T)).payload.length)) ++
      bytesToBitStream (pickPayload deflate (utf8Encode T)).payload) ++ cb := by
    rw [hbits]
    simp [List.append_assoc]
  have hdropPL : f.bits.drop (80 + f.payloadBits.length) = cb := by
    have hlen : 80 + f.payloadBits.length = ((PREAMBLE_BITS_V2 ++ (SYNC_BITS_V3 ++
        buildHeaderV3Bits (pickPayload deflate (utf8Encode T)).compressed (S % 256)
          (pickPayload deflate (utf8Encode T)).payload.length)) ++
        bytesToBitStream (pickPayload deflate (utf8Encode T)).payload).length := by
      rw [List.length_append, hAlen, hpb]
    rw [hsplit2, hlen, List.drop_left]
  rw [RxBitDecoder.init, htake80, hdropPL, hpb]
  have hmain := c2_aux inflate fb (pickPayload deflate (utf8Encode T)).payload
    (pickPayload deflate (utf8Encode T)).compressed (S % 256) cb i
    (Nat.mod_lt _ (by norm_num)) h2 hbytesP hcalc hi8
  rw [show (PREAMBLE_BITS_V2 ++ (SYNC_BITS_V3 ++
      buildHeaderV3Bits (pickPayload deflate (utf8Encode T)).compressed (S % 256)
        (pickPayload deflate (utf8Encode T)).payload.length)) ++
      flipAt (bytesToBitStream (pickPayload deflate (utf8Encode T)).payload) i ++ cb =
    PREAMBLE_BITS_V2 ++ SYNC_BITS_V3 ++
      buildHeaderV3Bits (pickPayload deflate (utf8Encode T)).compressed (S % 256)
        (pickPayload deflate (utf8Encode T)).payload.length ++
      (flipAt (bytesToBitStream (pickPayload deflate (utf8Encode T)).payload) i ++ cb)
    from by simp [List.append_assoc]]
  exact hmain

end Fask

namespace Fask

set_option maxRecDepth 4000 in
/-- C2 witness: flipping payload bit 0 of the concrete frame for "hi" with
seq 7 yields a crc_fail resync. -/
theorem c2_crc_sensitivity_witness :
    feedBits someInflate (RxBitDecoder.init false)
        ((EncodedFrameV3.bits
            ⟨PREAMBLE_BITS_V2 ++ SYNC_BITS_V3 ++ buildHeaderV3Bits false 7 2 ++
                bytesToBitStream [104, 105] ++ u16ToBits 44168,
              bytesToBitStream [104, 105], false, 2, 2, 7, 44168⟩).take 80 ++
          flipAt (bytesToBitStream [104, 105]) 0 ++
          (EncodedFrameV3.bits
            ⟨PREAMBLE_BITS_V2 ++ SYNC_BITS_V3 ++ buildHeaderV3Bits false 7 2 ++
                bytesToBitStream [104, 105] ++ u16ToBits 44168,
              bytesToBitStream [104, 105], false, 2, 2, 7, 44168⟩).drop
            (80 + (bytesToBitStream [104, 105]).length)) =
      (⟨.search_preamble [], ⟨0, 1, 0, 0, 0, 1, some .crc_fail⟩, false⟩,
        [.status, .status, .status, .status, .error .crc_fail]) :=
  c2_crc_sensitivity idDeflate someInflate [104, 105] 7
    ⟨PREAMBLE_BITS_V2 ++ SYNC_BITS_V3 ++ buildHeaderV3Bits false 7 2 ++
        bytesToBitStream [104, 105] ++ u16ToBits 44168,
      bytesToBitStream [104, 105], false, 2, 2, 7, 44168⟩
    false 0 (by decide) (by decide) rfl (by decide)

end Fask

/-! Claim C9: bit-inversion handling. The decoder is bisimilar to itself
under channel polarity reversal. -/

namespace Fask

theorem flipBit_flipBit (b : Bool) : flipBit (flipBit b) = b := by
  cases b <;> rfl

theorem countEqAux_map_flip (a b : Bits) :
    countEqAux (a.map flipBit) b = countEqAux a (b.map flipBit) := by
  induction a generalizing b with
  | nil => cases b <;> rfl
  | cons x xs ih =>
      cases b with
      | nil => rfl
      | cons y ys =>
          rw [List.map_cons, List.map_cons, countEqAux, countEqAux, ih]
          have hiff : (flipBit x = y) ↔ (x = flipBit y) := by
            cases x <;> cases y <;> simp [flipBit]
          exact congrArg (· + countEqAux xs (List.map flipBit ys))
            (if_congr hiff rfl rfl)

theorem countEqAux_flip_add (a b : Bits) (h : a.length = b.length) :
    countEqAux a (b.map flipBit) + countEqAux a b = a.length := by
  induction a generalizing b with
  | nil => simp [countEqAux]
  | cons x xs ih =>
      cases b with
      | nil => simp at h
      | cons y ys =>
          rw [List.map_cons, countEqAux, countEqAux]
          have hxy : ((if x = flipBit y then 1 else 0) : Nat) +
              (if x = y then 1 else 0) = 1 := by
            cases x <;> cases y <;> simp [flipBit]
          have := ih ys (by simpa using h)
          simp only [List.length_cons]
          omega

theorem countMatches_flip_pre (w : Bits) :
    countMatches (w.map flipBit) PREAMBLE_BITS_V2 = countMatches w INVERTED_PREAMBLE_BITS := by
  rw [countMatches, countMatches, INVERTED_PREAMBLE_BITS]
  simp only [List.length_map]
  by_cases h : w.length = PREAMBLE_BITS_V2.length
  · rw [if_pos h, if_pos h, countEqAux_map_flip]
  · rw [if_neg h, if_neg h]

theorem countMatches_flip_inv (w : Bits) :
    countMatches (w.map flipBit) INVERTED_PREAMBLE_BITS = countMatches w PREAMBLE_BITS_V2 := by
  rw [countMatches, countMatches, INVERTED_PREAMBLE_BITS]
  simp only [List.length_map]
  by_cases h : w.length = PREAMBLE_BITS_V2.length
  · rw [if_pos h, if_pos h, countEqAux_map_flip]
    rw [show (PREAMBLE_BITS_V2.map flipBit).map flipBit = PREAMBLE_BITS_V2 from rfl]
  · rw [if_neg h, if_neg h]

theorem countMatches_sum {w : Bits} (h : w.length = 32) :
    countMatches w PREAMBLE_BITS_V2 + countMatches w INVERTED_PREAMBLE_BITS = 32 := by
  have hp : PREAMBLE_BITS_V2.length = 32 := rfl
  rw [countMatches, countMatches, INVERTED_PREAMBLE_BITS]
  rw [if_pos (by omega), if_pos (by simp [List.length_map]; omega)]
  have := countEqAux_flip_add w PREAMBLE_BITS_V2 (by omega)
  omega

theorem decide_lt_flip {n i : Nat} (hne : n ≠ i) :
    decide (i < n) = !decide (n < i) := by
  rcases Nat.lt_trichotomy n i with h | h | h
  · simp [h, Nat.lt_asymm h]
  · exact absurd h hne
  · simp [h, Nat.lt_asymm h]

theorem pushWindow_map_flip (w : Bits) (m : Nat) (b : Bool) :
    pushWindow (w.map flipBit) m (flipBit b) = (pushWindow w m b).map flipBit := by
  rw [pushWindow, pushWindow]
  rw [show w.map flipBit ++ [flipBit b] = (w ++ [b]).map flipBit from by simp]
  rw [← List.map_drop]
  simp [List.length_map]

theorem consumeBit_invFlip (inflate : List Nat → Option (List Nat))
    (s : DecoderState) (st : DecoderStats) (fb : Bool) (b : Bool) :
    RxBitDecoder.consumeBit inflate ⟨stateFlip s, st, fb⟩ (flipBit b) =
      ((⟨stateFlip (RxBitDecoder.consumeBit inflate ⟨s, st, fb⟩ b).1.state,
        (RxBitDecoder.consumeBit inflate ⟨s, st, fb⟩ b).1.stats,
        (RxBitDecoder.consumeBit inflate ⟨s, st, fb⟩ b).1.allowV2Fallback⟩ : RxBitDecoder),
       (RxBitDecoder.consumeBit inflate ⟨s, st, fb⟩ b).2) := by
  cases s with
  | search_preamble w =>
      simp only [RxBitDecoder.consumeBit, stateFlip]
      rw [pushWindow_map_flip]
      by_cases hL : (pushWindow w PREAMBLE_BITS_V2.length b).length =
          PREAMBLE_BITS_V2.length
      · rw [if_pos (by rw [List.length_map]; exact hL), if_pos hL]
        rw [countMatches_flip_pre, countMatches_flip_inv]
        by_cases hcond : PREAMBLE_MATCH_MIN ≤
            countMatches (pushWindow w PREAMBLE_BITS_V2.length b) PREAMBLE_BITS_V2 ∨
            PREAMBLE_MATCH_MIN ≤
            countMatches (pushWindow w PREAMBLE_BITS_V2.length b) INVERTED_PREAMBLE_BITS
        · rw [if_pos (Or.symm hcond), if_pos hcond]
          have hsum := countMatches_sum (show
            (pushWindow w PREAMBLE_BITS_V2.length b).length = 32 by rw [hL]; rfl)
          have hne : countMatches (pushWindow w PREAMBLE_BITS_V2.length b)
              PREAMBLE_BITS_V2 ≠
              countMatches (pushWindow w PREAMBLE_BITS_V2.length b)
                INVERTED_PREAMBLE_BITS := by
            have hmin : PREAMBLE_MATCH_MIN = 28 := rfl
            omega
          rw [decide_lt_flip hne]
        · rw [if_neg (fun hc => hcond (Or.symm hc)), if_neg hcond]
      · rw [if_neg (by rw [List.length_map]; exact hL), if_neg hL]
  | search_sync w inv =>
      simp only [RxBitDecoder.consumeBit, stateFlip]
      rw [show (if (!inv) = true then flipBit (flipBit b) else flipBit b) =
          (if inv = true then flipBit b else b) from by cases inv <;> cases b <;> rfl]
      split_ifs <;> rfl
  | read_v3_header bits inv =>
      simp only [RxBitDecoder.consumeBit, stateFlip]
      rw [show (if (!inv) = true then flipBit (flipBit b) else flipBit b) =
          (if inv = true then flipBit b else b) from by cases inv <;> cases b <;> rfl]
      by_cases h32 : (bits ++ [if inv = true then flipBit b else b]).length < 32
      · rw [if_pos h32, if_pos h32]
      · rw [if_neg h32, if_neg h32]
        cases hp : parseHeaderV3 (bits ++ [if inv = true then flipBit b else b]) with
        | none => rfl
        | some parsed =>
            dsimp only
            split_ifs <;> rfl
  | read_v3_payload hB len c seq bits inv =>
      simp only [RxBitDecoder.consumeBit, stateFlip]
      rw [show (if (!inv) = true then flipBit (flipBit b) else flipBit b) =
          (if inv = true then flipBit b else b) from by cases inv <;> cases b <;> rfl]
      split_ifs <;> rfl
  | read_v3_crc hB pB c seq bits inv =>
      simp only [RxBitDecoder.consumeBit, stateFlip]
      rw [show (if (!inv) = true then flipBit (flipBit b) else flipBit b) =
          (if inv = true then flipBit b else b) from by cases inv <;> cases b <;> rfl]
      by_cases h16 : (bits ++ [if inv = true then flipBit b else b]).length < 16
      · rw [if_pos h16, if_pos h16]
      · rw [if_neg h16, if_neg h16]
        by_cases hver : verifyCrc16 hB pB
            ((bits ++ [if inv = true then flipBit b else b]).take 16) = true
        · rw [if_pos hver, if_pos hver]
          cases hdp : decodePayload inflate pB c with
          | none => rfl
          | some text => rfl
        · rw [if_neg hver, if_neg hver]
          rfl
  | read_v2_len bits inv =>
      simp only [RxBitDecoder.consumeBit, stateFlip]
      rw [show (if (!inv) = true then flipBit (flipBit b) else flipBit b) =
          (if inv = true then flipBit b else b) from by cases inv <;> cases b <;> rfl]
      by_cases h16 : (bits ++ [if inv = true then flipBit b else b]).length < 16
      · rw [if_pos h16, if_pos h16]
      · rw [if_neg h16, if_neg h16]
        split_ifs <;> rfl
  | read_v2_payload len c bits inv =>
      simp only [RxBitDecoder.consumeBit, stateFlip]
      rw [show (if (!inv) = true then flipBit (flipBit b) else flipBit b) =
          (if inv = true then flipBit b else b) from by cases inv <;> cases b <;> rfl]
      by_cases hn : (bits ++ [if inv = true then flipBit b else b]).length < len * 8
      · rw [if_pos hn, if_pos hn]
      · rw [if_neg hn, if_neg hn]
        cases hdp : decodePayload inflate
            ((bits ++ [if inv = true then flipBit b else b]).take (len * 8)) c with
        | none => rfl
        | some text => rfl

theorem feedBits_invFlip (inflate : List Nat → Option (List Nat))
    (s : DecoderState) (st : DecoderStats) (fb : Bool) (l : Bits) :
    feedBits inflate ⟨stateFlip s, st, fb⟩ (l.map flipBit) =
      ((⟨stateFlip (feedBits inflate ⟨s, st, fb⟩ l).1.state,
        (feedBits inflate ⟨s, st, fb⟩ l).1.stats,
        (feedBits inflate ⟨s, st, fb⟩ l).1.allowV2Fallback⟩ : RxBitDecoder),
       (feedBits inflate ⟨s, st, fb⟩ l).2) := by
  induction l generalizing s st fb with
  | nil => rfl
  | cons b t ih =>
      rcases hc : RxBitDecoder.consumeBit inflate ⟨s, st, fb⟩ b with ⟨⟨s1, st1, fb1⟩, ev⟩
      rw [List.map_cons]
      rw [feedBits_cons (t.map flipBit) (show RxBitDecoder.consumeBit inflate
        ⟨stateFlip s, st, fb⟩ (flipBit b) = (⟨stateFlip s1, st1, fb1⟩, ev) from by
          rw [consumeBit_invFlip inflate s st fb b, hc])]
      rw [feedBits_cons t hc, ih]

/-- C9: feeding the bitwise complement of any bit string into a freshly
constructed RxBitDecoder yields exactly the same event list (in particular
the same frame event: text, version, compressed flag, length and seq) and
the same final stats as feeding the original: the preamble lock on the
complemented pattern sets the inversion flag, and every subsequent
sync/header/payload/CRC bit is XOR-corrected by it. This holds in
particular for every frame produced by buildFrameBitsV2 or
buildFrameBitsV3. -/
theorem c9_complement_equivalence (inflate : List Nat → Option (List Nat))
    (fb : Bool) (bits : Bits) :
    (feedBits inflate (RxBitDecoder.init fb) (bits.map flipBit)).2 =
      (feedBits inflate (RxBitDecoder.init fb) bits).2 ∧
    (feedBits inflate (RxBitDecoder.init fb) (bits.map flipBit)).1.stats =
      (feedBits inflate (RxBitDecoder.init fb) bits).1.stats := by
  have h := feedBits_invFlip inflate (.search_preamble []) initialStats fb bits
  rw [show stateFlip (.search_preamble []) = DecoderState.search_preamble [] from rfl] at h
  constructor
  · rw [RxBitDecoder.init, h]
  · rw [RxBitDecoder.init, h]

end Fask
